import Mathlib

/-!
Verification of the Confluence page extractor (`confluence_reader.py`).

Strings are modelled as `List Char`.  The Python string operations used by the
source (`str.split(sep)`, `str.split()`, `str.replace`, `str.strip`, substring
test `in`, truthiness) are given faithful executable models below.  The
splitting and replacing scans are implemented with an explicit fuel argument
(always called with sufficient fuel) so that every definition reduces in the
kernel; the wrappers `pysplit`, `pyreplace`, `pysplitWs` supply the fuel.

External collaborators (the OCR engine, the html2text converter, the HTTP
layer, the HTML parser) are black boxes per the specification; they appear as
explicit function-valued parameters, never as stubs of repository code.
-/

/-- Python whitespace test used by `str.strip` / `str.split()`. -/
def isWs (c : Char) : Bool :=
  c = ' ' || c = '\t' || c = '\n' || c = '\r' || c = '\x0b' || c = '\x0c'

/-- Python `s.strip()`: drop whitespace from both ends. -/
def pystrip (s : List Char) : List Char :=
  ((s.dropWhile isWs).reverse.dropWhile isWs).reverse

/-- Fuelled left-to-right scan implementing Python `s.split(sep)` for a
non-empty separator: non-overlapping occurrences, scanned left to right. -/
def pysplitF (sep : List Char) : Nat → List Char → List (List Char)
  | 0, s => [s]
  | _ + 1, [] => [[]]
  | fuel + 1, c :: rest =>
    if sep ≠ [] ∧ sep.isPrefixOf (c :: rest) then
      [] :: pysplitF sep fuel (rest.drop (sep.length - 1))
    else
      match pysplitF sep fuel rest with
      | [] => [[c]]
      | p :: ps => (c :: p) :: ps

/-- Python `s.split(sep)` (non-empty `sep`). -/
def pysplit (sep s : List Char) : List (List Char) :=
  pysplitF sep (s.length + 1) s

/-- Fuelled scan implementing Python `s.replace(old, new)` for non-empty
`old`: replace non-overlapping occurrences, scanned left to right. -/
def pyreplaceF (old new : List Char) : Nat → List Char → List Char
  | 0, s => s
  | _ + 1, [] => []
  | fuel + 1, c :: rest =>
    if old ≠ [] ∧ old.isPrefixOf (c :: rest) then
      new ++ pyreplaceF old new fuel (rest.drop (old.length - 1))
    else
      c :: pyreplaceF old new fuel rest

/-- Python `s.replace(old, new)` (non-empty `old`). -/
def pyreplace (old new s : List Char) : List Char :=
  pyreplaceF old new (s.length + 1) s

/-- Fuelled scan implementing Python `s.split()` (no separator): split on
whitespace runs, dropping empty fields. -/
def pysplitWsF : Nat → List Char → List (List Char)
  | 0, _ => []
  | _ + 1, [] => []
  | fuel + 1, c :: rest =>
    if isWs c then pysplitWsF fuel rest
    else (c :: rest.takeWhile (fun a => !isWs a)) ::
      pysplitWsF fuel (rest.dropWhile (fun a => !isWs a))

/-- Python `s.split()` (whitespace splitting, empty fields dropped). -/
def pysplitWs (s : List Char) : List (List Char) :=
  pysplitWsF (s.length + 1) s

/-- Decimal digit character for `d < 10`. -/
def digitChar (d : Nat) : Char := Char.ofNat (48 + d)

/-- Fuelled decimal rendering of a natural number (Python `f-string`). -/
def natDigitsF : Nat → Nat → List Char
  | 0, _ => []
  | fuel + 1, n =>
    if n < 10 then [digitChar n] else natDigitsF fuel (n / 10) ++ [digitChar (n % 10)]

/-- Decimal rendering of a natural number, as Python string formatting does. -/
def natDigits (n : Nat) : List Char := natDigitsF (n + 1) n

example : pysplit "/".data "a/b//c".data = ["a".data, "b".data, [], "c".data] := by decide
example : pysplit "aa".data "aaa".data = [[], "a".data] := by decide
example : pyreplace "  ".data " ".data "a   b".data = "a  b".data := by decide
example : pysplitWs "  a  bc ".data = ["a".data, "bc".data] := by decide
example : pystrip "  ab ".data = "ab".data := by decide
example : natDigits 123 = "123".data := by decide
example : natDigits 0 = "0".data := by decide

/-!
## Image/Table Extractor (`extract_table_from_image`, confluence_reader.py:282-322)

Image decoding plus OCR (`Image.open` + `pytesseract.image_to_string`) is the
black-box step: its outcome is an `Except`, `error e` standing for any
exception raised inside the `try` block (caught by the source and turned into
a placeholder string), `ok text` standing for the OCR text.
-/

/-- `lines = [line.strip() for line in text.split('\n') if line.strip()]`. -/
def ocrLines (text : List Char) : List (List Char) :=
  (pysplit "\n".data text).filterMap
    (fun l => if pystrip l = [] then none else some (pystrip l))

/-- `' '.join(line.split())`: collapse internal whitespace runs. -/
def collapseWs (l : List Char) : List Char :=
  List.intercalate " ".data (pysplitWs l)

/-- `cleaned_lines` of confluence_reader.py:296-301. -/
def cleanedLines (text : List Char) : List (List Char) :=
  (ocrLines text).filterMap
    (fun l => if collapseWs l = [] then none else some (collapseWs l))

/-- The `for i, row in enumerate(cleaned_lines[1:], 1)` loop body. -/
def rowsText (n : Nat) : List (List Char) → List Char
  | [] => []
  | r :: rs => "Row ".data ++ natDigits n ++ ": ".data ++ r ++ "\n".data ++ rowsText (n + 1) rs

/-- Body of the `try` block of `extract_table_from_image` applied to the OCR
text (confluence_reader.py:292-319). -/
def tableBody (text : List Char) : List Char :=
  if (ocrLines text).length > 1 then
    if (cleanedLines text).length > 0 then
      "TABLE DATA (structured for analysis):\n".data ++
        (if cleanedLines text ≠ [] then
          "Headers: ".data ++ (cleanedLines text).headD [] ++ "\n".data
        else []) ++
        rowsText 1 (cleanedLines text).tail
    else
      "TABLE DATA:\n".data ++ List.intercalate "\n".data (ocrLines text)
  else
    "IMAGE CONTENT: ".data ++ text

/-- `extract_table_from_image` (confluence_reader.py:282-322): the whole body
is wrapped in `try/except`, any exception `e` yielding the placeholder. -/
def extract_table_from_image (ocr : Except (List Char) (List Char)) : List Char :=
  match ocr with
  | Except.ok text => tableBody text
  | Except.error e => "[Unable to process image: ".data ++ e ++ "]".data

/-!
## Page-ID Resolver (`extract_page_id_from_url`, confluence_reader.py:505-512)

The `ValueError` raise is modelled as `Except.error` carrying the message.
-/

/-- `extract_page_id_from_url` (confluence_reader.py:505-512). -/
def extract_page_id_from_url (url : List Char) : Except (List Char) (List Char) :=
  if "/pages/".data <:+: url then
    Except.ok ((pysplit "/".data ((pysplit "/pages/".data url).getLastD [])).headD [])
  else if "pageId=".data <:+: url then
    Except.ok ((pysplit "&".data ((pysplit "pageId=".data url).getLastD [])).headD [])
  else
    Except.error "Unable to extract page ID from URL. Please provide a valid Confluence page URL.".data

/-!
## Line cleanup (confluence_reader.py:407-418, identically 251-261)
-/

/-- The per-line marker stripping of confluence_reader.py:413-415:
`line.replace('**','').replace('*','').replace('##','').replace('#','').replace('  ',' ')`. -/
def cleanLine (l : List Char) : List Char :=
  pyreplace "  ".data " ".data
    (pyreplace "#".data []
      (pyreplace "##".data []
        (pyreplace "*".data []
          (pyreplace "**".data [] l))))

/-- The line-cleanup flattening step (confluence_reader.py:407-418): split into
lines, strip each, drop blanks, strip markers, join with single spaces. -/
def cleanup (text : List Char) : List Char :=
  List.intercalate " ".data
    ((pysplit "\n".data text).filterMap
      (fun l => if pystrip l = [] then none else some (cleanLine (pystrip l))))

deriving instance DecidableEq for Except

example : extract_page_id_from_url "https://x/wiki/spaces/S/pages/123456/Title".data
    = Except.ok "123456".data := by decide
example : extract_page_id_from_url "https://x?pageId=789&foo=1".data
    = Except.ok "789".data := by decide
example : (extract_page_id_from_url "https://x/no/id/here".data).isOk = false := by decide
example : extract_table_from_image (Except.ok "Col1  Col2\nVal1 Val2".data)
    = "TABLE DATA (structured for analysis):\nHeaders: Col1 Col2\nRow 1: Val1 Val2\n".data := by
  decide
example : extract_table_from_image (Except.ok "Hello World".data)
    = "IMAGE CONTENT: Hello World".data := by decide
example : cleanup "  a **b**\n\n## c\nd   e".data = "a b  c d  e".data := by decide
example : cleanup "a   b".data = "a  b".data := by decide
example : cleanup (cleanup "a   b".data) = "a b".data := by decide

/-!
## Comment Thread Flattener (`process_comments`, confluence_reader.py:197-271)

A comment is modelled by the fields the source reads: the `is_reply` marker
set by the fetch layer, the author display name and timestamp from `version`,
the raw body HTML from `body.storage.value`, and the ancestor titles used by
`get_commented_content`.  The html2text conversion `h.handle` is the black-box
parameter `h2t`.
-/

structure Comment where
  is_reply : Bool
  author : List Char
  created : List Char
  body : List Char
  ancestors : List (List Char)
deriving DecidableEq

/-- `get_commented_content` (confluence_reader.py:182-195): nearest ancestor
title if present and non-empty, else the fixed main-page placeholder. -/
def get_commented_content (c : Comment) : List Char :=
  match c.ancestors.getLast? with
  | some title =>
      if title ≠ [] then "Commenting on: ".data ++ title
      else "Commenting on: Main page content".data
  | none => "Commenting on: Main page content".data

/-- One rendered comment entry (confluence_reader.py:234-269): rendered only
when the raw body is non-empty (`if body:`); the body text is
`h.handle(body).strip()` run through the line cleanup. -/
def renderComment (h2t : List Char → List Char) (c : Comment)
    (label indent : List Char) : List Char :=
  if c.body ≠ [] then
    indent ++ "--- ".data ++ label ++ " ---\n".data ++
    indent ++ "Author: ".data ++ c.author ++ "\n".data ++
    indent ++ "Date: ".data ++ c.created ++ "\n".data ++
    (if !c.is_reply then indent ++ get_commented_content c ++ "\n".data else []) ++
    indent ++ "Content: ".data ++ cleanup (pystrip (h2t c.body)) ++ "\n\n".data
  else []

/-- The comment loop of confluence_reader.py:210-269, carrying
`comment_counter` and `reply_counter`. -/
def processCommentsAux (h2t : List Char → List Char) :
    List Comment → Nat → Nat → List Char
  | [], _, _ => []
  | c :: cs, cc, rc =>
    if c.is_reply then
      renderComment h2t c ("  REPLY ".data ++ natDigits (rc + 1)) "    ".data ++
        processCommentsAux h2t cs cc (rc + 1)
    else
      renderComment h2t c ("COMMENT ".data ++ natDigits (cc + 1)) [] ++
        processCommentsAux h2t cs (cc + 1) (if cc + 1 > 1 then 0 else rc)

/-- `process_comments` (confluence_reader.py:197-271). -/
def process_comments (h2t : List Char → List Char) (comments : List Comment) :
    List Char :=
  if comments = [] then []
  else "\n\nPAGE COMMENTS AND DISCUSSIONS:\n\n".data ++ processCommentsAux h2t comments 0 0

/-!
## Content Normalizer (`process_confluence_content`, confluence_reader.py:324-427)

The parsed HTML body is modelled as a list of nodes: text nodes, `img`
elements (with optional `src`) and `ri:attachment` elements (with optional
`ri:filename`).  The black boxes are gathered in `ImgWorld`: image download,
decode+OCR outcome per downloaded byte string, the html2text conversion of a
node tree, and `urljoin` for relative sources.  The debug flag is modelled as
false (its branches only add debug output).
-/

inductive Node where
  | text : List Char → Node
  | img : Option (List Char) → Node
  | riAtt : Option (List Char) → Node
deriving DecidableEq

structure ImgWorld where
  download : List Char → Option (List Char)
  ocr : List Char → Except (List Char) (List Char)
  h2t : List Node → List Char
  urljoin : List Char → List Char → List Char

/-- Source-URL resolution of confluence_reader.py:365-366. -/
def resolveSrc (w : ImgWorld) (base src : List Char) : List Char :=
  if "http".data.isPrefixOf src then src else w.urljoin base src

/-- Placeholder token substituted for a processed inline image
(confluence_reader.py:375). -/
def imgPlaceholder (n : Nat) : List Char :=
  "[IMAGE_".data ++ natDigits n ++ "_PROCESSED_BELOW]".data

/-- The inline-image loop of confluence_reader.py:361-377: `i` counts the
`img` elements seen so far (the `enumerate(images)` index); a successfully
downloaded image is replaced in the tree by the placeholder text node and
contributes an `--- IMAGE n ---` block; failures leave the tree unchanged. -/
def processImages (w : ImgWorld) (base : List Char) :
    List Node → Nat → List Node × List (List Char)
  | [], _ => ([], [])
  | Node.text t :: rest, i =>
    let pr := processImages w base rest i
    (Node.text t :: pr.1, pr.2)
  | Node.riAtt f :: rest, i =>
    let pr := processImages w base rest i
    (Node.riAtt f :: pr.1, pr.2)
  | Node.img osrc :: rest, i =>
    match osrc with
    | some src =>
      match w.download (resolveSrc w base src) with
      | some bytes =>
        let pr := processImages w base rest (i + 1)
        (Node.text (imgPlaceholder (i + 1)) :: pr.1,
          ("\n--- IMAGE ".data ++ natDigits (i + 1) ++ " ---\n".data ++
            extract_table_from_image (w.ocr bytes) ++ "\n".data) :: pr.2)
      | none =>
        let pr := processImages w base rest (i + 1)
        (Node.img (some src) :: pr.1, pr.2)
    | none =>
      let pr := processImages w base rest (i + 1)
      (Node.img none :: pr.1, pr.2)

/-- `soup.find_all('ri:attachment')`: the attachment elements in order. -/
def docAtts : List Node → List (Option (List Char))
  | [] => []
  | Node.riAtt f :: rest => f :: docAtts rest
  | _ :: rest => docAtts rest

/-- The attachment loop of confluence_reader.py:380-391: the download URL is
`{base}/wiki/download/attachments/{page id}/{filename}`; successes contribute
an `--- ATTACHMENT n ---` block, the tree is not modified. -/
def processAtts (w : ImgWorld) (base pageId : List Char) :
    List (Option (List Char)) → Nat → List (List Char)
  | [], _ => []
  | ofn :: rest, i =>
    match ofn with
    | some fn =>
      match w.download (base ++ "/wiki/download/attachments/".data ++ pageId ++
          "/".data ++ fn) with
      | some bytes =>
        ("\n--- ATTACHMENT ".data ++ natDigits (i + 1) ++ " ---\n".data ++
          extract_table_from_image (w.ocr bytes) ++ "\n".data) ::
          processAtts w base pageId rest (i + 1)
      | none => processAtts w base pageId rest (i + 1)
    | none => processAtts w base pageId rest (i + 1)

/-- `process_confluence_content` (confluence_reader.py:324-427); `body` is the
parsed `body.storage.value` tree, `none` when the body key is missing. -/
def process_confluence_content (w : ImgWorld) (base pageId : List Char)
    (body : Option (List Node)) : List Char :=
  match body with
  | none => "No content body found".data
  | some doc =>
    let pr := processImages w base doc 0
    let imageTexts := pr.2 ++ processAtts w base pageId (docAtts doc) 0
    let cleanText := cleanup (w.h2t pr.1)
    if imageTexts ≠ [] then
      cleanText ++ "\n\nEXTRACTED IMAGES AND TABLES:\n".data ++ imageTexts.flatten
    else cleanText

/-!
## Extraction Orchestrator (`run`, confluence_reader.py:429-503)

`Params` models the invocation parameters, `World` the external collaborators:
environment variables, the authentication probe, the page fetch (the error
side carrying the underlying transport message), the comment list already
assembled by the fetch layer, the html2text black box for comment bodies, the
image-processing black boxes, the base URL computed by `urlparse`, and whether
the optional output-file write succeeds.  Python truthiness on optional
strings is `truthyS`; `x or y` is `pyOrS`.  `run` returns the result envelope
together with the file artifact actually written (`none` when no write
happened or the write raised — the source catches that exception and only
logs it).
-/

structure Page where
  id : List Char
  title : List Char
  typ : List Char
  statusField : List Char
  body : Option (List Node)

structure Params where
  url : List Char
  email : Option (List Char)
  api_token : Option (List Char)
  include_comments : Bool
  output_file : Option (List Char)

structure World where
  envEmail : Option (List Char)
  envToken : Option (List Char)
  authOk : Bool
  fetch : Except (List Char) Page
  commentResults : List Comment
  h2tComments : List Char → List Char
  imgw : ImgWorld
  baseUrl : List Char
  writeOk : Bool

inductive RunResult where
  | ok (title typ statusField content pageId url : List Char)
      (output_file : Option (List Char))
  | err (message : List Char)
deriving DecidableEq

/-- Python truthiness of an optional string (`None` and `''` are falsy). -/
def truthyS : Option (List Char) → Bool
  | some s => s ≠ []
  | none => false

/-- Python `x or y` on optional strings. -/
def pyOrS (a b : Option (List Char)) : Option (List Char) :=
  if truthyS a then a else b

/-- `email = params.get('email') or os.getenv('CONFLUENCE_EMAIL')`
(confluence_reader.py:436). -/
def resolveEmail (w : World) (p : Params) : Option (List Char) :=
  pyOrS p.email w.envEmail

/-- `token = params.get('api_token') or os.getenv('CONFLUENCE_API_TOKEN')`
(confluence_reader.py:437). -/
def resolveToken (w : World) (p : Params) : Option (List Char) :=
  pyOrS p.api_token w.envToken

/-- The in-memory content assembled by `run` (confluence_reader.py:465-474):
the normalized page plus, on request, the flattened comments when non-empty. -/
def finalContentOf (w : World) (p : Params) (page : Page) : List Char :=
  let processed := process_confluence_content w.imgw w.baseUrl page.id page.body
  if p.include_comments then
    let ct := process_comments w.h2tComments w.commentResults
    if ct ≠ [] then processed ++ ct else processed
  else processed

/-- The metadata header written to the output file (confluence_reader.py:481-485). -/
def fileHeader (page : Page) (url : List Char) : List Char :=
  "# ".data ++ page.title ++ "\n".data ++
  "**Type:** ".data ++ page.typ ++ "\n".data ++
  "**Status:** ".data ++ page.statusField ++ "\n".data ++
  "**URL:** ".data ++ url ++ "\n".data ++
  "**Page ID:** ".data ++ page.id ++ "\n\n".data

/-- `run` (confluence_reader.py:429-503).  Any exception raised inside the
`try` block (the page-ID `ValueError`, the wrapped fetch error) is caught and
becomes the error envelope; the file-write failure is caught separately and
absorbed. -/
def run (w : World) (p : Params) : RunResult × Option (List Char) :=
  if ¬ truthyS (resolveEmail w p) then
    (RunResult.err "CONFLUENCE_EMAIL not provided in params or environment variables".data, none)
  else if ¬ truthyS (resolveToken w p) then
    (RunResult.err "CONFLUENCE_API_TOKEN not provided in params or environment variables".data, none)
  else
    match extract_page_id_from_url p.url with
    | Except.error m => (RunResult.err m, none)
    | Except.ok _ =>
      if ¬ w.authOk then
        (RunResult.err "Authentication failed. Please check your credentials.".data, none)
      else
        match w.fetch with
        | Except.error e => (RunResult.err ("Error fetching content: ".data ++ e), none)
        | Except.ok page =>
          let content := finalContentOf w p page
          let written :=
            if truthyS p.output_file ∧ w.writeOk then
              some (fileHeader page p.url ++ content)
            else none
          (RunResult.ok page.title page.typ page.statusField content page.id p.url
            (if truthyS p.output_file then p.output_file else none), written)

/-!
## Library lemmas about the Python string primitives
-/

theorem pysplitF_ne_nil (sep : List Char) : ∀ fuel s, pysplitF sep fuel s ≠ [] := by
  intro fuel
  induction fuel with
  | zero => intro s; simp [pysplitF]
  | succ f ih =>
    intro s
    cases s with
    | nil => simp [pysplitF]
    | cons c rest =>
      simp only [pysplitF]
      split
      · simp
      · cases h : pysplitF sep f rest with
        | nil => simp
        | cons p ps => simp

theorem pysplit_ne_nil (sep s : List Char) : pysplit sep s ≠ [] :=
  pysplitF_ne_nil sep _ s

theorem pysplitF_no_occ (sep : List Char) :
    ∀ fuel s, s.length < fuel → (∀ i, ¬ sep <+: s.drop i) →
      pysplitF sep fuel s = [s] := by
  intro fuel
  induction fuel with
  | zero => intro s h; omega
  | succ f ih =>
    intro s hlen hno
    cases s with
    | nil => simp [pysplitF]
    | cons c rest =>
      have hnp : ¬ (sep ≠ [] ∧ sep.isPrefixOf (c :: rest) = true) := by
        rintro ⟨-, hp⟩
        exact hno 0 (by simpa using (List.isPrefixOf_iff_prefix.mp hp))
      have hrest : pysplitF sep f rest = [rest] := by
        apply ih rest (by simp at hlen; omega)
        intro i hi
        exact hno (i + 1) (by simpa using hi)
      simp only [pysplitF]
      rw [if_neg hnp, hrest]

theorem pysplitF_length_two (sep : List Char) (hsep : sep ≠ []) :
    ∀ fuel s i, s.length < fuel → sep <+: s.drop i →
      2 ≤ (pysplitF sep fuel s).length := by
  intro fuel
  induction fuel with
  | zero => intro s i h; omega
  | succ f ih =>
    intro s i hlen hocc
    cases s with
    | nil =>
      rw [List.drop_nil] at hocc
      exact absurd (List.prefix_nil.mp hocc) hsep
    | cons c rest =>
      simp only [pysplitF]
      split
      · have := pysplitF_ne_nil sep f (rest.drop (sep.length - 1))
        cases h : pysplitF sep f (rest.drop (sep.length - 1)) with
        | nil => exact absurd h this
        | cons p ps => simp
      · rename_i hneg
        cases i with
        | zero =>
          rw [List.drop_zero] at hocc
          exact absurd ⟨hsep, List.isPrefixOf_iff_prefix.mpr hocc⟩ hneg
        | succ j =>
          have hr : sep <+: rest.drop j := by simpa using hocc
          have h2 := ih rest j (by simp at hlen; omega) hr
          cases h : pysplitF sep f rest with
          | nil => exact absurd h (pysplitF_ne_nil sep f rest)
          | cons p ps => rw [h] at h2; simpa using h2

theorem pysplitF_getLast_unique (sep : List Char) (hsep : sep ≠ []) :
    ∀ fuel a b, (a ++ sep ++ b).length < fuel →
      (∀ i, sep <+: (a ++ sep ++ b).drop i → i = a.length) →
      (pysplitF sep fuel (a ++ sep ++ b)).getLastD [] = b := by
  intro fuel
  induction fuel with
  | zero => intro a b h; omega
  | succ f ih =>
    intro a b hlen huniq
    cases a with
    | nil =>
      simp only [List.nil_append] at hlen huniq ⊢
      cases hs : sep with
      | nil => exact absurd hs hsep
      | cons c sep' =>
        subst hs
        rw [List.cons_append]
        simp only [pysplitF]
        rw [if_pos ⟨hsep, List.isPrefixOf_iff_prefix.mpr (by
          rw [← List.cons_append]; exact List.prefix_append _ _)⟩]
        have hdrop : (sep' ++ b).drop ((c :: sep').length - 1) = b := by
          simp only [List.length_cons, Nat.add_sub_cancel]
          exact List.drop_left sep' b
        rw [hdrop]
        have hb : pysplitF (c :: sep') f b = [b] := by
          apply pysplitF_no_occ _ f b
            (by simp only [List.length_cons, List.length_append] at hlen; omega)
          intro i hi
          have : (c :: sep').length + i = 0 := by
            apply huniq
            rw [← List.drop_drop i (c :: sep').length (c :: sep' ++ b), List.drop_left]
            exact hi
          simp only [List.length_cons] at this
          omega
        rw [hb]
        rfl
    | cons d a' =>
      have hnotzero : ¬ sep <+: ((d :: a') ++ sep ++ b).drop 0 := by
        intro h
        have := huniq 0 h
        simp at this
      rw [List.cons_append, List.cons_append]
      simp only [pysplitF]
      rw [if_neg (by
        rintro ⟨-, hp⟩
        exact hnotzero (by
          rw [List.drop_zero, List.cons_append, List.cons_append]
          exact List.isPrefixOf_iff_prefix.mp hp))]
      have hlen' : (a' ++ sep ++ b).length < f := by
        simp at hlen ⊢; omega
      have huniq' : ∀ i, sep <+: (a' ++ sep ++ b).drop i → i = a'.length := by
        intro i hi
        have : i + 1 = (d :: a').length := by
          apply huniq (i + 1)
          simpa using hi
        simpa using this
      have hIH := ih a' b hlen' huniq'
      have hocc : sep <+: (a' ++ sep ++ b).drop a'.length := by
        rw [List.append_assoc, List.drop_left]
        exact List.prefix_append _ _
      have h2 := pysplitF_length_two sep hsep f (a' ++ sep ++ b) a'.length hlen' hocc
      cases h : pysplitF sep f (a' ++ sep ++ b) with
      | nil => exact absurd h (pysplitF_ne_nil sep f _)
      | cons p ps =>
        rw [h] at hIH h2
        cases ps with
        | nil => simp at h2
        | cons q qs =>
          simp only [List.getLastD_cons] at hIH ⊢
          exact hIH

/-- The segment of `s` up to (excluding) the first occurrence of `c`, or all
of `s`: the wording "up to the next `c` or end of string". -/
def upTo (c : Char) (s : List Char) : List Char :=
  s.takeWhile (fun a => a != c)

theorem pysplitF_headD_single (c : Char) :
    ∀ fuel s, s.length < fuel → (pysplitF [c] fuel s).headD [] = upTo c s := by
  intro fuel
  induction fuel with
  | zero => intro s h; omega
  | succ f ih =>
    intro s hlen
    cases s with
    | nil => simp [pysplitF, upTo]
    | cons d rest =>
      simp only [pysplitF]
      by_cases hdc : d = c
      · subst hdc
        rw [if_pos ⟨by simp, by simp [List.isPrefixOf]⟩]
        simp [upTo]
      · rw [if_neg (by
          rintro ⟨-, hp⟩
          have := List.isPrefixOf_iff_prefix.mp hp
          rcases this with ⟨t, ht⟩
          simp at ht
          exact hdc ht.1.symm)]
        have hr := ih rest (by simp at hlen; omega)
        cases h : pysplitF [c] f rest with
        | nil => exact absurd h (pysplitF_ne_nil [c] f rest)
        | cons p ps =>
          rw [h] at hr
          simp only [List.headD_cons] at hr ⊢
          simp [upTo, List.takeWhile_cons, hdc, hr]

theorem pysplit_getLast_unique (sep a b : List Char) (hsep : sep ≠ [])
    (huniq : ∀ i, sep <+: (a ++ sep ++ b).drop i → i = a.length) :
    (pysplit sep (a ++ sep ++ b)).getLastD [] = b :=
  pysplitF_getLast_unique sep hsep _ a b (by omega) huniq

theorem pysplit_headD_single (c : Char) (s : List Char) :
    (pysplit [c] s).headD [] = upTo c s :=
  pysplitF_headD_single c _ s (by omega)

theorem pysplit_no_occ (sep s : List Char) (h : ∀ i, ¬ sep <+: s.drop i) :
    pysplit sep s = [s] :=
  pysplitF_no_occ sep _ s (by omega) h

/-- Occurrences past the end do not exist; lets a finite check discharge a
universally quantified occurrence hypothesis. -/
theorem occ_bounded (pat s : List Char) (k : Nat) (hp : pat ≠ [])
    (h : ∀ i, i < s.length → pat <+: s.drop i → i = k) :
    ∀ i, pat <+: s.drop i → i = k := by
  intro i hi
  by_cases hlt : i < s.length
  · exact h i hlt hi
  · rw [List.drop_eq_nil_of_le (by omega)] at hi
    exact absurd (List.prefix_nil.mp hi) hp

/-- An infix occurrence is an occurrence at some index. -/
theorem infix_iff_occurs (tok s : List Char) :
    tok <:+: s ↔ ∃ i, tok <+: s.drop i := by
  constructor
  · rintro ⟨p, q, rfl⟩
    exact ⟨p.length, by rw [List.append_assoc, List.drop_left]; exact List.prefix_append _ _⟩
  · rintro ⟨i, t, ht⟩
    exact ⟨s.take i, t, by rw [List.append_assoc, ht, List.take_append_drop]⟩

/-- C2: for every URL string: if it contains the literal segment `/pages/`
(formalised: the URL decomposes around its unique occurrence), the Page-ID
Resolver returns the path segment immediately following it, up to the next
`/` or end of string; else if it contains `pageId=` (likewise around its
unique occurrence), it returns the substring from there up to the next `&` or
end of string; else it fails with the unresolvable-reference error. -/
theorem claim_C2 :
    (∀ url a b, url = a ++ "/pages/".data ++ b →
      (∀ i, "/pages/".data <+: url.drop i → i = a.length) →
      extract_page_id_from_url url = Except.ok (upTo '/' b)) ∧
    (∀ url a b, ¬ ("/pages/".data <:+: url) →
      url = a ++ "pageId=".data ++ b →
      (∀ i, "pageId=".data <+: url.drop i → i = a.length) →
      extract_page_id_from_url url = Except.ok (upTo '&' b)) ∧
    (∀ url, ¬ ("/pages/".data <:+: url) → ¬ ("pageId=".data <:+: url) →
      extract_page_id_from_url url = Except.error
        "Unable to extract page ID from URL. Please provide a valid Confluence page URL.".data) := by
  refine ⟨?_, ?_, ?_⟩
  · intro url a b hurl huniq
    subst hurl
    have hinf : "/pages/".data <:+: a ++ "/pages/".data ++ b :=
      ⟨a, b, rfl⟩
    simp only [extract_page_id_from_url]
    rw [if_pos hinf]
    rw [pysplit_getLast_unique _ a b (by decide) huniq, pysplit_headD_single]
  · intro url a b hnp hurl huniq
    subst hurl
    have hinf : "pageId=".data <:+: a ++ "pageId=".data ++ b :=
      ⟨a, b, rfl⟩
    simp only [extract_page_id_from_url]
    rw [if_neg hnp, if_pos hinf]
    rw [pysplit_getLast_unique _ a b (by decide) huniq, pysplit_headD_single]
  · intro url hnp hnq
    simp only [extract_page_id_from_url]
    rw [if_neg hnp, if_neg hnq]

/-- Witness for C2 at the three URLs of test property 1 of the specification. -/
theorem claim_C2_w :
    extract_page_id_from_url "https://x/wiki/spaces/S/pages/123456/Title".data
      = Except.ok "123456".data ∧
    extract_page_id_from_url "https://x?pageId=789&foo=1".data
      = Except.ok "789".data ∧
    extract_page_id_from_url "https://x/no/id/here".data = Except.error
      "Unable to extract page ID from URL. Please provide a valid Confluence page URL.".data := by
  refine ⟨?_, ?_, ?_⟩
  · exact (claim_C2.1 _ "https://x/wiki/spaces/S".data "123456/Title".data (by decide)
      (occ_bounded _ _ _ (by decide) (by decide))).trans (by decide)
  · exact (claim_C2.2.1 _ "https://x?".data "789&foo=1".data (by decide) (by decide)
      (occ_bounded _ _ _ (by decide) (by decide))).trans (by decide)
  · exact claim_C2.2.2 _ (by decide) (by decide)

/-- C1: for every OCR outcome the Image/Table Extractor returns a non-empty
string (no exception escapes: the embedding is total, every raised exception
being the `error` case of the outcome), and a decode/OCR failure with message
`e` yields exactly the literal placeholder string. -/
theorem claim_C1 :
    (∀ ocr, extract_table_from_image ocr ≠ []) ∧
    (∀ e, extract_table_from_image (Except.error e) =
      "[Unable to process image: ".data ++ e ++ "]".data) := by
  constructor
  · intro ocr
    cases ocr with
    | error e =>
      simp only [extract_table_from_image]
      intro h
      have := congrArg List.length h
      simp [List.length_append] at this
    | ok text =>
      simp only [extract_table_from_image, tableBody]
      split
      · split
        · intro h
          have := congrArg List.length h
          simp [List.length_append] at this
        · intro h
          have := congrArg List.length h
          simp [List.length_append] at this
      · intro h
        have := congrArg List.length h
        simp [List.length_append] at this
  · intro e
    rfl

theorem infix_app_left {α : Type} (s : List α) {x t : List α} (h : x <:+: t) :
    x <:+: s ++ t := by
  rcases h with ⟨p, q, rfl⟩
  exact ⟨s ++ p, q, by simp [List.append_assoc]⟩

theorem infix_app_right {α : Type} (t : List α) {x s : List α} (h : x <:+: s) :
    x <:+: s ++ t := by
  rcases h with ⟨p, q, rfl⟩
  exact ⟨p, q ++ t, by simp [List.append_assoc]⟩

theorem head_dropWhile_not {α : Type} (p : α → Bool) :
    ∀ (l : List α) {c : α} {r : List α}, l.dropWhile p = c :: r → p c = false := by
  intro l
  induction l with
  | nil => intro c r h; simp [List.dropWhile] at h
  | cons d rest ih =>
    intro c r h
    rw [List.dropWhile_cons] at h
    split at h
    · exact ih h
    · rename_i hd
      cases h
      simpa using hd

theorem pystrip_has_nonWs (s : List Char) (h : pystrip s ≠ []) :
    ∃ c ∈ pystrip s, isWs c = false := by
  unfold pystrip at *
  cases hu : ((s.dropWhile isWs).reverse.dropWhile isWs) with
  | nil => rw [hu] at h; simp at h
  | cons c u' =>
    exact ⟨c, by simp, head_dropWhile_not isWs _ hu⟩

theorem pysplitWsF_parts_ne_nil :
    ∀ fuel l p ps, pysplitWsF fuel l = p :: ps → p ≠ [] := by
  intro fuel
  induction fuel with
  | zero => intro l p ps h; simp [pysplitWsF] at h
  | succ f ih =>
    intro l p ps h
    cases l with
    | nil => simp [pysplitWsF] at h
    | cons c rest =>
      simp only [pysplitWsF] at h
      split at h
      · exact ih rest p ps h
      · cases h; simp

theorem pysplitWsF_ne_nil :
    ∀ fuel l, l.length < fuel → (∃ c ∈ l, isWs c = false) →
      pysplitWsF fuel l ≠ [] := by
  intro fuel
  induction fuel with
  | zero => intro l h; omega
  | succ f ih =>
    intro l hlen hex
    cases l with
    | nil => rcases hex with ⟨c, hc, -⟩; simp at hc
    | cons c rest =>
      simp only [pysplitWsF]
      split
      · rename_i hws
        apply ih rest (by simp at hlen; omega)
        rcases hex with ⟨a, ha, hna⟩
        rcases List.mem_cons.mp ha with rfl | ha'
        · rw [hws] at hna; simp at hna
        · exact ⟨a, ha', hna⟩
      · simp

theorem collapseWs_ne_nil (l : List Char) (hex : ∃ c ∈ l, isWs c = false) :
    collapseWs l ≠ [] := by
  unfold collapseWs pysplitWs
  cases hp : pysplitWsF (l.length + 1) l with
  | nil => exact absurd hp (pysplitWsF_ne_nil _ l (by omega) hex)
  | cons p ps =>
    have hpne := pysplitWsF_parts_ne_nil _ l p ps hp
    cases ps with
    | nil => simpa [List.intercalate] using hpne
    | cons q qs =>
      simp only [List.intercalate, List.intersperse, List.flatten]
      intro h
      exact hpne (List.append_eq_nil.mp h).1

theorem mem_ocrLines (text l : List Char) (h : l ∈ ocrLines text) :
    l ≠ [] ∧ ∃ c ∈ l, isWs c = false := by
  unfold ocrLines at h
  rcases List.mem_filterMap.mp h with ⟨a, -, ha⟩
  split at ha
  · simp at ha
  · rename_i hne
    cases ha
    exact ⟨hne, pystrip_has_nonWs a hne⟩

theorem cleanedLines_eq_map (text : List Char) :
    cleanedLines text = (ocrLines text).map collapseWs := by
  unfold cleanedLines
  have : ∀ ls : List (List Char), (∀ l ∈ ls, collapseWs l ≠ []) →
      (ls.filterMap (fun l => if collapseWs l = [] then none else some (collapseWs l)))
        = ls.map collapseWs := by
    intro ls
    induction ls with
    | nil => intro _; rfl
    | cons x xs ih =>
      intro hall
      rw [List.filterMap_cons, List.map_cons, if_neg (hall x (by simp)),
        ih (fun l hl => hall l (by simp [hl]))]
  apply this
  intro l hl
  exact collapseWs_ne_nil l (mem_ocrLines text l hl).2

theorem intercalate_cons2 {α : Type} (sep p q : List α) (qs : List (List α)) :
    List.intercalate sep (p :: q :: qs) = p ++ sep ++ List.intercalate sep (q :: qs) := by
  simp [List.intercalate, List.intersperse]

theorem intercalate_single {α : Type} (sep p : List α) :
    List.intercalate sep [p] = p := by
  simp [List.intercalate]

theorem rowsText_hasRow :
    ∀ (rs : List (List Char)) (n i : Nat) (h : i < rs.length),
      ("Row ".data ++ natDigits (n + i) ++ ": ".data ++ rs.get ⟨i, h⟩ ++ "\n".data)
        <:+: rowsText n rs := by
  intro rs
  induction rs with
  | nil => intro n i h; simp at h
  | cons r rest ih =>
    intro n i h
    cases i with
    | zero =>
      simp only [Nat.add_zero, List.get]
      exact ⟨[], rowsText (n + 1) rest, by simp [rowsText, List.append_assoc]⟩
    | succ j =>
      have hj : j < rest.length := by simpa using h
      have := ih (n + 1) j hj
      rw [show n + (j + 1) = (n + 1) + j by omega]
      simp only [List.get]
      exact infix_app_left _ this

/-- C5 counterexample: the OCR output `" Hello\n"` has exactly one non-blank
line, `"Hello"`, yet the result is `"IMAGE CONTENT: "` followed by the raw
OCR text, not by that line. -/
theorem claim_C5_cex :
    ocrLines " Hello\n".data = ["Hello".data] ∧
    extract_table_from_image (Except.ok " Hello\n".data)
      = "IMAGE CONTENT: ".data ++ " Hello\n".data ∧
    extract_table_from_image (Except.ok " Hello\n".data)
      ≠ "IMAGE CONTENT: ".data ++ "Hello".data := by decide

/-- C5 (amended): for every OCR output with exactly one non-blank line, the
Image/Table Extractor returns `"IMAGE CONTENT: "` followed by the raw OCR
text (which equals the line exactly when the OCR output carries no
surrounding whitespace), and never a table rendering. -/
theorem claim_C5 : ∀ text, (ocrLines text).length = 1 →
    extract_table_from_image (Except.ok text) = "IMAGE CONTENT: ".data ++ text ∧
    ¬ ("TABLE DATA".data <+: extract_table_from_image (Except.ok text)) := by
  intro text h
  have hbody : extract_table_from_image (Except.ok text)
      = "IMAGE CONTENT: ".data ++ text := by
    simp only [extract_table_from_image, tableBody]
    rw [if_neg (by omega)]
  refine ⟨hbody, ?_⟩
  rw [hbody]
  rintro ⟨t, ht⟩
  rw [show "TABLE DATA".data = 'T' :: "ABLE DATA".data from rfl,
      show "IMAGE CONTENT: ".data = 'I' :: "MAGE CONTENT: ".data from rfl] at ht
  simp only [List.cons_append] at ht
  injection ht with h1 _
  exact absurd h1 (by decide)

/-- Witness for C5 at the example `"Hello World"`. -/
theorem claim_C5_w :
    (ocrLines "Hello World".data).length = 1 ∧
    extract_table_from_image (Except.ok "Hello World".data)
      = "IMAGE CONTENT: ".data ++ "Hello World".data :=
  ⟨by decide, (claim_C5 "Hello World".data (by decide)).1⟩

theorem rowsText_tail_hasRow (cl : List (List Char)) (i : Nat) (hi : i + 1 < cl.length) :
    ("Row ".data ++ natDigits (i + 1) ++ ": ".data ++ cl.get ⟨i + 1, hi⟩ ++ "\n".data)
      <:+: rowsText 1 cl.tail := by
  rcases cl with _ | ⟨c, cs⟩
  · simp at hi
  · have hj : i < cs.length := by simpa using hi
    have hrow := rowsText_hasRow cs 1 i hj
    rw [show (1 : Nat) + i = i + 1 from by omega] at hrow
    simpa using hrow

/-- C6: for every OCR output with at least two non-blank lines the result is
the table rendering: it starts with the table header, contains the
`Headers:` line built from the first whitespace-collapsed line, and contains
`Row i:` for every subsequent whitespace-collapsed line (1-indexed). -/
theorem claim_C6 : ∀ text, 2 ≤ (ocrLines text).length →
    extract_table_from_image (Except.ok text) =
      "TABLE DATA (structured for analysis):\n".data ++
      ("Headers: ".data ++ (cleanedLines text).headD [] ++ "\n".data) ++
      rowsText 1 (cleanedLines text).tail ∧
    ("TABLE DATA (structured for analysis):".data
      <+: extract_table_from_image (Except.ok text)) ∧
    (("Headers: ".data ++ (cleanedLines text).headD [] ++ "\n".data)
      <:+: extract_table_from_image (Except.ok text)) ∧
    (∀ i (hi : i + 1 < (cleanedLines text).length),
      ("Row ".data ++ natDigits (i + 1) ++ ": ".data ++
          (cleanedLines text).get ⟨i + 1, hi⟩ ++ "\n".data)
        <:+: extract_table_from_image (Except.ok text)) := by
  intro text h
  have hlen : (cleanedLines text).length = (ocrLines text).length := by
    rw [cleanedLines_eq_map]; simp
  have hne : cleanedLines text ≠ [] := by
    intro hh
    rw [hh] at hlen
    simp at hlen
    omega
  have heq : extract_table_from_image (Except.ok text) =
      "TABLE DATA (structured for analysis):\n".data ++
      ("Headers: ".data ++ (cleanedLines text).headD [] ++ "\n".data) ++
      rowsText 1 (cleanedLines text).tail := by
    simp only [extract_table_from_image, tableBody]
    rw [if_pos (by omega), if_pos (by omega), if_pos hne]
  refine ⟨heq, ?_, ?_, ?_⟩
  · rw [heq, show "TABLE DATA (structured for analysis):\n".data
      = "TABLE DATA (structured for analysis):".data ++ "\n".data from rfl,
      List.append_assoc, List.append_assoc]
    exact List.prefix_append _ _
  · rw [heq]
    exact ⟨_, _, rfl⟩
  · intro i hi
    rw [heq]
    exact infix_app_left _ (rowsText_tail_hasRow (cleanedLines text) i hi)

/-- Witness for C6 at the example `"Col1 Col2\nVal1 Val2"`. -/
theorem claim_C6_w :
    2 ≤ (ocrLines "Col1 Col2\nVal1 Val2".data).length ∧
    ("Headers: ".data ++ (cleanedLines "Col1 Col2\nVal1 Val2".data).headD [] ++ "\n".data)
      <:+: extract_table_from_image (Except.ok "Col1 Col2\nVal1 Val2".data) :=
  ⟨by decide, (claim_C6 "Col1 Col2\nVal1 Val2".data (by decide)).2.2.1⟩

/-- Witness for C1: a concrete failing decode and a concrete OCR success. -/
theorem claim_C1_w :
    extract_table_from_image (Except.error "cannot identify image file".data)
      = "[Unable to process image: ".data ++ "cannot identify image file".data ++ "]".data ∧
    extract_table_from_image (Except.ok "Hello".data) ≠ [] :=
  ⟨claim_C1.2 "cannot identify image file".data, claim_C1.1 (Except.ok "Hello".data)⟩

theorem pyreplaceF_fuel (old new : List Char) :
    ∀ f1 f2 s, s.length < f1 → s.length < f2 →
      pyreplaceF old new f1 s = pyreplaceF old new f2 s := by
  intro f1
  induction f1 with
  | zero => intro f2 s h; omega
  | succ g ih =>
    intro f2 s h1 h2
    cases f2 with
    | zero => omega
    | succ h =>
      cases s with
      | nil => rfl
      | cons c rest =>
        simp only [pyreplaceF]
        split
        · rw [ih h (rest.drop (old.length - 1))
            (by simp at h1 ⊢; have := List.length_drop (old.length - 1) rest; omega)
            (by simp at h2 ⊢; have := List.length_drop (old.length - 1) rest; omega)]
        · rw [ih h rest (by simp at h1; omega) (by simp at h2; omega)]

theorem pysplitF_fuel (sep : List Char) :
    ∀ f1 f2 s, s.length < f1 → s.length < f2 →
      pysplitF sep f1 s = pysplitF sep f2 s := by
  intro f1
  induction f1 with
  | zero => intro f2 s h; omega
  | succ g ih =>
    intro f2 s h1 h2
    cases f2 with
    | zero => omega
    | succ h =>
      cases s with
      | nil => rfl
      | cons c rest =>
        simp only [pysplitF]
        split
        · rw [ih h (rest.drop (sep.length - 1))
            (by simp at h1 ⊢; have := List.length_drop (sep.length - 1) rest; omega)
            (by simp at h2 ⊢; have := List.length_drop (sep.length - 1) rest; omega)]
        · rw [ih h rest (by simp at h1; omega) (by simp at h2; omega)]

theorem pyreplace_nil (old new : List Char) : pyreplace old new [] = [] := rfl

theorem pyreplace_cons (old new : List Char) (c : Char) (rest : List Char) :
    pyreplace old new (c :: rest) =
      if old ≠ [] ∧ old.isPrefixOf (c :: rest) then
        new ++ pyreplace old new (rest.drop (old.length - 1))
      else
        c :: pyreplace old new rest := by
  show pyreplaceF old new ((c :: rest).length + 1) (c :: rest) = _
  simp only [pyreplaceF, List.length_cons]
  split
  · rw [pyreplaceF_fuel old new (rest.length + 1) ((rest.drop (old.length - 1)).length + 1)
      (rest.drop (old.length - 1))
      (by have := List.length_drop (old.length - 1) rest; omega) (by omega)]
    rfl
  · rfl

theorem pysplit_nil (sep : List Char) : pysplit sep [] = [[]] := rfl

theorem pysplit_cons (sep : List Char) (c : Char) (rest : List Char) :
    pysplit sep (c :: rest) =
      if sep ≠ [] ∧ sep.isPrefixOf (c :: rest) then
        [] :: pysplit sep (rest.drop (sep.length - 1))
      else
        match pysplit sep rest with
        | [] => [[c]]
        | p :: ps => (c :: p) :: ps := by
  show pysplitF sep ((c :: rest).length + 1) (c :: rest) = _
  simp only [pysplitF, List.length_cons]
  split
  · rw [pysplitF_fuel sep (rest.length + 1) ((rest.drop (sep.length - 1)).length + 1)
      (rest.drop (sep.length - 1))
      (by have := List.length_drop (sep.length - 1) rest; omega) (by omega)]
    rfl
  · rfl

theorem pyreplace_no_occ (old new : List Char) :
    ∀ s, (∀ i, ¬ old <+: s.drop i) → pyreplace old new s = s := by
  have key : ∀ n s, s.length ≤ n → (∀ i, ¬ old <+: s.drop i) →
      pyreplace old new s = s := by
    intro n
    induction n with
    | zero =>
      intro s hlen _
      have hs : s = [] := List.length_eq_zero.mp (by omega)
      subst hs
      rfl
    | succ m ih =>
      intro s hlen hno
      cases s with
      | nil => rfl
      | cons c rest =>
        rw [pyreplace_cons,
          if_neg (by
            rintro ⟨-, hp⟩
            exact hno 0 (by simpa using List.isPrefixOf_iff_prefix.mp hp))]
        rw [ih rest (by simp at hlen; omega)
          (fun i hi => hno (i + 1) (by simpa using hi))]
  intro s
  exact key s.length s (by omega)

theorem mem_pyreplace_single (b : Char) (new : List Char) :
    ∀ s a, a ∈ pyreplace [b] new s → a ∈ new ∨ (a ∈ s ∧ a ≠ b) := by
  have key : ∀ n s, s.length ≤ n → ∀ a, a ∈ pyreplace [b] new s →
      a ∈ new ∨ (a ∈ s ∧ a ≠ b) := by
    intro n
    induction n with
    | zero =>
      intro s hlen a ha
      have hs : s = [] := List.length_eq_zero.mp (by omega)
      subst hs
      simp [pyreplace_nil] at ha
    | succ m ih =>
      intro s hlen a ha
      cases s with
      | nil => simp [pyreplace_nil] at ha
      | cons c rest =>
        rw [pyreplace_cons] at ha
        split at ha
        · rename_i hcond
          have hcb : b = c := by
            rcases List.isPrefixOf_iff_prefix.mp hcond.2 with ⟨t, ht⟩
            have ht' : b :: t = c :: rest := by simpa using ht
            injection ht'
          simp only [List.length_cons, Nat.sub_self, List.drop_zero] at ha
          rcases List.mem_append.mp ha with h | h
          · exact Or.inl h
          · rcases ih rest (by simp at hlen; omega) a h with h' | ⟨h1, h2⟩
            · exact Or.inl h'
            · exact Or.inr ⟨by simp [h1], h2⟩
        · rename_i hcond
          rcases List.mem_cons.mp ha with rfl | h
          · refine Or.inr ⟨by simp, ?_⟩
            intro hab
            exact hcond ⟨by simp, by simp [hab, List.isPrefixOf]⟩
          · rcases ih rest (by simp at hlen; omega) a h with h' | ⟨h1, h2⟩
            · exact Or.inl h'
            · exact Or.inr ⟨by simp [h1], h2⟩
  intro s
  exact key s.length s (by omega)

theorem mem_pyreplace (old new : List Char) :
    ∀ s a, a ∈ pyreplace old new s → a ∈ new ∨ a ∈ s := by
  have key : ∀ n s, s.length ≤ n → ∀ a, a ∈ pyreplace old new s →
      a ∈ new ∨ a ∈ s := by
    intro n
    induction n with
    | zero =>
      intro s hlen a ha
      have hs : s = [] := List.length_eq_zero.mp (by omega)
      subst hs
      simp [pyreplace_nil] at ha
    | succ m ih =>
      intro s hlen a ha
      cases s with
      | nil => simp [pyreplace_nil] at ha
      | cons c rest =>
        rw [pyreplace_cons] at ha
        split at ha
        · rcases List.mem_append.mp ha with h | h
          · exact Or.inl h
          · rcases ih (rest.drop (old.length - 1))
              (by have := List.length_drop (old.length - 1) rest; simp at hlen; omega) a h with
              h' | h'
            · exact Or.inl h'
            · exact Or.inr (by
                have : a ∈ rest := List.mem_of_mem_drop h'
                simp [this])
        · rcases List.mem_cons.mp ha with rfl | h
          · exact Or.inr (by simp)
          · rcases ih rest (by simp at hlen; omega) a h with h' | h'
            · exact Or.inl h'
            · exact Or.inr (by simp [h'])
  intro s
  exact key s.length s (by omega)

theorem pyreplace_prefree (old new : List Char) :
    ∀ t r, (∀ a ∈ t, a ∉ old) →
      pyreplace old new (t ++ r) = t ++ pyreplace old new r := by
  intro t
  induction t with
  | nil => intro r _; rfl
  | cons a t' ih =>
    intro r hfree
    rw [List.cons_append, pyreplace_cons,
      if_neg (by
        rintro ⟨hne, hp⟩
        cases hold : old with
        | nil => exact hne hold
        | cons o os =>
          rw [hold] at hp
          rcases List.isPrefixOf_iff_prefix.mp hp with ⟨u, hu⟩
          have hu' : o :: (os ++ u) = a :: (t' ++ r) := by simpa using hu
          have hoa : o = a := by injection hu'
          exact hfree a (by simp) (by simp [hold, hoa])),
      ih r (fun x hx => hfree x (by simp [hx]))]
    simp

theorem pyreplace_keeps_token (old new tok : List Char) (hne : tok ≠ [])
    (hfree : ∀ a ∈ tok, a ∉ old) :
    ∀ s, tok <:+: s → tok <:+: pyreplace old new s := by
  have key : ∀ n s, s.length ≤ n → tok <:+: s → tok <:+: pyreplace old new s := by
    intro n
    induction n with
    | zero =>
      intro s hlen hinf
      have hs : s = [] := List.length_eq_zero.mp (by omega)
      subst hs
      rcases hinf with ⟨p, q, hpq⟩
      exact absurd (List.append_eq_nil.mp (List.append_eq_nil.mp hpq).1).2 hne
    | succ m ih =>
      intro s hlen hinf
      cases s with
      | nil =>
        rcases hinf with ⟨p, q, hpq⟩
        exact absurd (List.append_eq_nil.mp (List.append_eq_nil.mp hpq).1).2 hne
      | cons c rest =>
        rw [pyreplace_cons]
        split
        · rename_i hcond
          rcases hinf with ⟨p, q, hpq⟩
          rcases List.isPrefixOf_iff_prefix.mp hcond.2 with ⟨u, hu⟩
          by_cases hple : old.length ≤ p.length
          · have hpo : old <+: p :=
              List.prefix_of_prefix_length_le ⟨u, hu⟩
                ⟨tok ++ q, by simpa [List.append_assoc] using hpq⟩ hple
            rcases hpo with ⟨p', hp'⟩
            have hdrop : rest.drop (old.length - 1) = p' ++ tok ++ q := by
              have h1 : c :: rest = old ++ (p' ++ tok ++ q) := by
                rw [← hpq, ← hp']
                simp [List.append_assoc]
              have h2 := congrArg (List.drop old.length) h1
              rw [List.drop_left] at h2
              cases hold : old with
              | nil => exact absurd hold hcond.1
              | cons o os =>
                rw [hold] at h2
                simpa using h2
            apply infix_app_left
            apply ih _ (by
              have := List.length_drop (old.length - 1) rest
              simp at hlen
              omega)
            rw [hdrop]
            exact ⟨p', q, rfl⟩
          · exfalso
            cases htok : tok with
            | nil => exact hne htok
            | cons t0 tok' =>
              have hpt : (p ++ [t0]).length ≤ old.length := by simp; omega
              have hp1 : p ++ [t0] <+: c :: rest := by
                refine ⟨tok' ++ q, ?_⟩
                rw [← hpq, htok]
                simp [List.append_assoc]
              have hp2 : p ++ [t0] <+: old :=
                List.prefix_of_prefix_length_le hp1 ⟨u, hu⟩ hpt
              have : t0 ∈ old := hp2.subset (by simp)
              exact hfree t0 (by simp [htok]) this
        · rcases hinf with ⟨p, q, hpq⟩
          cases p with
          | nil =>
            cases htok : tok with
            | nil => exact absurd htok hne
            | cons t0 tok' =>
              rw [htok] at hpq
              have hct : t0 = c := by
                have : t0 :: (tok' ++ q) = c :: rest := by simpa using hpq
                injection this
              have hrest : rest = tok' ++ q := by
                have : t0 :: (tok' ++ q) = c :: rest := by simpa using hpq
                injection this with _ h2
                exact h2.symm
              subst hct
              rw [hrest, pyreplace_prefree old new tok' q
                (fun x hx => hfree x (by simp [htok, hx]))]
              exact ⟨[], pyreplace old new q, by simp [htok, List.append_assoc]⟩
          | cons c' p' =>
            have hrest : tok <:+: rest := by
              have : c' :: (p' ++ (tok ++ q)) = c :: rest := by simpa [List.append_assoc] using hpq
              injection this with _ h2
              exact ⟨p', q, by simp [← h2, List.append_assoc]⟩
            have := ih rest (by simp at hlen; omega) hrest
            exact infix_app_left [c] this
  intro s
  exact key s.length s (by omega)

theorem pysplit_prefree (sep : List Char) :
    ∀ t r, (∀ a ∈ t, a ∉ sep) →
      pysplit sep (t ++ r) = (t ++ (pysplit sep r).headD []) :: (pysplit sep r).tail := by
  intro t
  induction t with
  | nil =>
    intro r _
    cases h : pysplit sep r with
    | nil => exact absurd h (pysplit_ne_nil sep r)
    | cons p ps => simp [h]
  | cons a t' ih =>
    intro r hfree
    rw [List.cons_append, pysplit_cons,
      if_neg (by
        rintro ⟨hne, hp⟩
        cases hold : sep with
        | nil => exact hne hold
        | cons o os =>
          rw [hold] at hp
          rcases List.isPrefixOf_iff_prefix.mp hp with ⟨u, hu⟩
          have hu' : o :: (os ++ u) = a :: (t' ++ r) := by simpa using hu
          have hoa : o = a := by injection hu'
          exact hfree a (by simp) (by simp [hold, hoa])),
      ih r (fun x hx => hfree x (by simp [hx]))]
    simp

theorem pysplit_exists_part (sep tok : List Char) (hne : tok ≠ [])
    (hfree : ∀ a ∈ tok, a ∉ sep) :
    ∀ s, tok <:+: s → ∃ p ∈ pysplit sep s, tok <:+: p := by
  have key : ∀ n s, s.length ≤ n → tok <:+: s → ∃ p ∈ pysplit sep s, tok <:+: p := by
    intro n
    induction n with
    | zero =>
      intro s hlen hinf
      have hs : s = [] := List.length_eq_zero.mp (by omega)
      subst hs
      rcases hinf with ⟨p, q, hpq⟩
      exact absurd (List.append_eq_nil.mp (List.append_eq_nil.mp hpq).1).2 hne
    | succ m ih =>
      intro s hlen hinf
      cases s with
      | nil =>
        rcases hinf with ⟨p, q, hpq⟩
        exact absurd (List.append_eq_nil.mp (List.append_eq_nil.mp hpq).1).2 hne
      | cons c rest =>
        rw [pysplit_cons]
        split
        · rename_i hcond
          rcases hinf with ⟨p, q, hpq⟩
          rcases List.isPrefixOf_iff_prefix.mp hcond.2 with ⟨u, hu⟩
          by_cases hple : sep.length ≤ p.length
          · have hpo : sep <+: p :=
              List.prefix_of_prefix_length_le ⟨u, hu⟩
                ⟨tok ++ q, by simpa [List.append_assoc] using hpq⟩ hple
            rcases hpo with ⟨p', hp'⟩
            have hdrop : rest.drop (sep.length - 1) = p' ++ tok ++ q := by
              have h1 : c :: rest = sep ++ (p' ++ tok ++ q) := by
                rw [← hpq, ← hp']
                simp [List.append_assoc]
              have h2 := congrArg (List.drop sep.length) h1
              rw [List.drop_left] at h2
              cases hold : sep with
              | nil => exact absurd hold hcond.1
              | cons o os =>
                rw [hold] at h2
                simpa using h2
            have hrec := ih (rest.drop (sep.length - 1)) (by
              have := List.length_drop (sep.length - 1) rest
              simp at hlen
              omega) (by rw [hdrop]; exact ⟨p', q, rfl⟩)
            rcases hrec with ⟨part, hmem, hx⟩
            exact ⟨part, by simp [hmem], hx⟩
          · exfalso
            cases htok : tok with
            | nil => exact hne htok
            | cons t0 tok' =>
              have hpt : (p ++ [t0]).length ≤ sep.length := by simp; omega
              have hp1 : p ++ [t0] <+: c :: rest := by
                refine ⟨tok' ++ q, ?_⟩
                rw [← hpq, htok]
                simp [List.append_assoc]
              have hp2 : p ++ [t0] <+: sep :=
                List.prefix_of_prefix_length_le hp1 ⟨u, hu⟩ hpt
              have : t0 ∈ sep := hp2.subset (by simp)
              exact hfree t0 (by simp [htok]) this
        · rcases hinf with ⟨p, q, hpq⟩
          cases p with
          | nil =>
            cases htok : tok with
            | nil => exact absurd htok hne
            | cons t0 tok' =>
              rw [htok] at hpq
              have hext : t0 :: (tok' ++ q) = c :: rest := by simpa using hpq
              have hct : t0 = c := by injection hext
              have hrest : rest = tok' ++ q := by
                injection hext with _ h2
                exact h2.symm
              subst hct
              rw [hrest, pysplit_prefree sep tok' q
                (fun x hx => hfree x (by simp [htok, hx]))]
              refine ⟨t0 :: (tok' ++ (pysplit sep q).headD []), by simp, ?_⟩
              exact ⟨[], (pysplit sep q).headD [], by simp [htok, List.append_assoc]⟩
          | cons c' p' =>
            have hrest : tok <:+: rest := by
              have hext : c' :: (p' ++ (tok ++ q)) = c :: rest := by
                simpa [List.append_assoc] using hpq
              injection hext with _ h2
              exact ⟨p', q, by simp [← h2, List.append_assoc]⟩
            rcases ih rest (by simp at hlen; omega) hrest with ⟨part, hmem, hx⟩
            cases hps : pysplit sep rest with
            | nil => exact absurd hps (pysplit_ne_nil sep rest)
            | cons w ws =>
              rw [hps] at hmem
              rcases List.mem_cons.mp hmem with rfl | hmem'
              · exact ⟨c :: part, by simp, infix_app_left [c] hx⟩
              · exact ⟨part, by simp [hmem'], hx⟩
  intro s
  exact key s.length s (by omega)

theorem dropWhile_keeps_token (tok : List Char) (hne : tok ≠ [])
    (hfree : ∀ a ∈ tok, isWs a = false) (l : List Char) (h : tok <:+: l) :
    tok <:+: l.dropWhile isWs := by
  rcases h with ⟨p, q, hpq⟩
  subst hpq
  rw [List.append_assoc, List.dropWhile_append]
  split
  · cases htok : tok with
    | nil => exact absurd htok hne
    | cons t0 tok' =>
      rw [List.cons_append, List.dropWhile_cons,
        if_neg (by rw [hfree t0 (by rw [htok]; simp)]; simp)]
      exact ⟨[], q, by simp⟩
  · exact infix_app_left _ ⟨[], q, rfl⟩

theorem reverse_keeps_token {α : Type} {tok l : List α} (h : tok <:+: l) :
    tok.reverse <:+: l.reverse := by
  rcases h with ⟨p, q, rfl⟩
  exact ⟨q.reverse, p.reverse, by simp⟩

theorem pystrip_keeps_token (tok : List Char) (hne : tok ≠ [])
    (hfree : ∀ a ∈ tok, isWs a = false) (l : List Char) (h : tok <:+: l) :
    tok <:+: pystrip l := by
  unfold pystrip
  have h1 : tok <:+: l.dropWhile isWs := dropWhile_keeps_token tok hne hfree l h
  have h2 : tok.reverse <:+: (l.dropWhile isWs).reverse := reverse_keeps_token h1
  have h3 : tok.reverse <:+: ((l.dropWhile isWs).reverse).dropWhile isWs :=
    dropWhile_keeps_token tok.reverse (by simpa using hne)
      (fun a ha => hfree a (by simpa using ha)) _ h2
  have h4 := reverse_keeps_token h3
  simpa using h4

theorem infix_intercalate_of_part {α : Type} (sep : List α) :
    ∀ (parts : List (List α)) (p : List α), p ∈ parts → ∀ tok, tok <:+: p →
      tok <:+: List.intercalate sep parts := by
  intro parts
  induction parts with
  | nil => intro p hp; simp at hp
  | cons x xs ih =>
    intro p hp tok htok
    cases xs with
    | nil =>
      rcases List.mem_cons.mp hp with rfl | hp'
      · rwa [intercalate_single]
      · simp at hp'
    | cons y ys =>
      rw [intercalate_cons2]
      rcases List.mem_cons.mp hp with rfl | hp'
      · exact infix_app_right _ (infix_app_right _ htok)
      · rw [List.append_assoc]
        exact infix_app_left _ (infix_app_left _ (ih p hp' tok htok))

theorem cleanLine_keeps_token (tok : List Char) (hne : tok ≠ [])
    (hstar : ∀ a ∈ tok, a ≠ '*') (hhash : ∀ a ∈ tok, a ≠ '#')
    (hsp : ∀ a ∈ tok, a ≠ ' ') (l : List Char) (h : tok <:+: l) :
    tok <:+: cleanLine l := by
  unfold cleanLine
  apply pyreplace_keeps_token _ _ _ hne (by
    intro a ha hmem
    have : "  ".data = [' ', ' '] := rfl
    rw [this] at hmem
    have ha' : a = ' ' := by
      rcases List.mem_cons.mp hmem with h' | hmem'
      · exact h'
      · simpa using hmem'
    exact hsp a ha ha')
  apply pyreplace_keeps_token _ _ _ hne (by
    intro a ha hmem
    have : "#".data = ['#'] := rfl
    rw [this] at hmem
    simp at hmem
    exact hhash a ha hmem)
  apply pyreplace_keeps_token _ _ _ hne (by
    intro a ha hmem
    have : "##".data = ['#', '#'] := rfl
    rw [this] at hmem
    have ha' : a = '#' := by
      rcases List.mem_cons.mp hmem with h' | hmem'
      · exact h'
      · simpa using hmem'
    exact hhash a ha ha')
  apply pyreplace_keeps_token _ _ _ hne (by
    intro a ha hmem
    have : "*".data = ['*'] := rfl
    rw [this] at hmem
    simp at hmem
    exact hstar a ha hmem)
  apply pyreplace_keeps_token _ _ _ hne (by
    intro a ha hmem
    have : "**".data = ['*', '*'] := rfl
    rw [this] at hmem
    have ha' : a = '*' := by
      rcases List.mem_cons.mp hmem with h' | hmem'
      · exact h'
      · simpa using hmem'
    exact hstar a ha ha')
  exact h

theorem cleanup_keeps_token (tok : List Char) (hne : tok ≠ [])
    (hws : ∀ a ∈ tok, isWs a = false)
    (hstar : ∀ a ∈ tok, a ≠ '*') (hhash : ∀ a ∈ tok, a ≠ '#')
    (text : List Char) (h : tok <:+: text) : tok <:+: cleanup text := by
  have hnl : ∀ a ∈ tok, a ∉ "\n".data := by
    intro a ha hmem
    have : "\n".data = ['\n'] := rfl
    rw [this] at hmem
    simp at hmem
    subst hmem
    have := hws '\n' ha
    simp [isWs] at this
  rcases pysplit_exists_part "\n".data tok hne hnl text h with ⟨line, hline, htok⟩
  have hstrip : tok <:+: pystrip line := pystrip_keeps_token tok hne hws line htok
  have hstrip_ne : pystrip line ≠ [] := by
    intro hh
    rw [hh] at hstrip
    rcases hstrip with ⟨p, q, hpq⟩
    exact hne (List.append_eq_nil.mp (List.append_eq_nil.mp hpq).1).2
  have hclean : tok <:+: cleanLine (pystrip line) :=
    cleanLine_keeps_token tok hne hstar hhash
      (fun a ha hsp => by have := hws a ha; rw [hsp] at this; simp [isWs] at this)
      _ hstrip
  unfold cleanup
  apply infix_intercalate_of_part _ _ (cleanLine (pystrip line)) _ tok hclean
  exact List.mem_filterMap.mpr ⟨line, hline, by rw [if_neg hstrip_ne]⟩

theorem not_mem_pysplit_single (c : Char) :
    ∀ s p, p ∈ pysplit [c] s → c ∉ p := by
  have key : ∀ n s, s.length ≤ n → ∀ p, p ∈ pysplit [c] s → c ∉ p := by
    intro n
    induction n with
    | zero =>
      intro s hlen p hp
      have hs : s = [] := List.length_eq_zero.mp (by omega)
      subst hs
      rw [pysplit_nil] at hp
      simp at hp
      simp [hp]
    | succ m ih =>
      intro s hlen p hp
      cases s with
      | nil =>
        rw [pysplit_nil] at hp
        simp at hp
        simp [hp]
      | cons d rest =>
        rw [pysplit_cons] at hp
        by_cases hdc : d = c
        · rw [if_pos ⟨by simp, by simp [hdc, List.isPrefixOf]⟩] at hp
          simp only [List.length_cons, Nat.sub_self, List.drop_zero] at hp
          rcases List.mem_cons.mp hp with rfl | hp'
          · simp
          · exact ih rest (by simp at hlen; omega) p hp'
        · rw [if_neg (by
            rintro ⟨-, hpre⟩
            rcases List.isPrefixOf_iff_prefix.mp hpre with ⟨u, hu⟩
            have hu' : c :: u = d :: rest := by simpa using hu
            have : c = d := by injection hu'
            exact hdc this.symm)] at hp
          cases hps : pysplit [c] rest with
          | nil => exact absurd hps (pysplit_ne_nil [c] rest)
          | cons w ws =>
            rw [hps] at hp
            have hmemw : c ∉ w := ih rest (by simp at hlen; omega) w (by rw [hps]; simp)
            rcases List.mem_cons.mp hp with rfl | hp'
            · intro hc
              rcases List.mem_cons.mp hc with rfl | hc'
              · exact hdc rfl
              · exact hmemw hc'
            · exact ih rest (by simp at hlen; omega) p (by rw [hps]; simp [hp'])
  intro s
  exact key s.length s (by omega)

theorem mem_pystrip (s : List Char) (a : Char) (h : a ∈ pystrip s) : a ∈ s := by
  unfold pystrip at h
  rw [List.mem_reverse] at h
  have h1 := (List.dropWhile_sublist (l := (s.dropWhile isWs).reverse) isWs).subset h
  rw [List.mem_reverse] at h1
  exact (List.dropWhile_sublist isWs).subset h1

theorem mem_cleanLine (l : List Char) (a : Char) (h : a ∈ cleanLine l) :
    a = ' ' ∨ a ∈ l := by
  unfold cleanLine at h
  rcases mem_pyreplace _ _ _ a h with h1 | h1
  · left
    simpa using h1
  rcases mem_pyreplace _ _ _ a h1 with h2 | h2
  · simp at h2
  rcases mem_pyreplace _ _ _ a h2 with h3 | h3
  · simp at h3
  rcases mem_pyreplace _ _ _ a h3 with h4 | h4
  · simp at h4
  rcases mem_pyreplace _ _ _ a h4 with h5 | h5
  · simp at h5
  · exact Or.inr h5

theorem star_not_mem_cleanLine (l : List Char) : '*' ∉ cleanLine l := by
  intro h
  unfold cleanLine at h
  rcases mem_pyreplace _ _ _ '*' h with h1 | h1
  · simp at h1
  rcases mem_pyreplace _ _ _ '*' h1 with h2 | h2
  · simp at h2
  rcases mem_pyreplace _ _ _ '*' h2 with h3 | h3
  · simp at h3
  have h4 := mem_pyreplace_single '*' [] _ '*'
    (by rw [show "*".data = ['*'] from rfl] at h3; exact h3)
  rcases h4 with h5 | ⟨-, h5⟩
  · simp at h5
  · exact h5 rfl

theorem hash_not_mem_cleanLine (l : List Char) : '#' ∉ cleanLine l := by
  intro h
  unfold cleanLine at h
  rcases mem_pyreplace _ _ _ '#' h with h1 | h1
  · simp at h1
  have h2 := mem_pyreplace_single '#' [] _ '#'
    (by rw [show "#".data = ['#'] from rfl] at h1; exact h1)
  rcases h2 with h3 | ⟨-, h3⟩
  · simp at h3
  · exact h3 rfl

theorem mem_intercalate {α : Type} (sep : List α) :
    ∀ (parts : List (List α)) (a : α), a ∈ List.intercalate sep parts →
      a ∈ sep ∨ ∃ p ∈ parts, a ∈ p := by
  intro parts
  induction parts with
  | nil => intro a h; simp [List.intercalate] at h
  | cons x xs ih =>
    intro a h
    cases xs with
    | nil =>
      rw [intercalate_single] at h
      exact Or.inr ⟨x, by simp, h⟩
    | cons y ys =>
      rw [intercalate_cons2] at h
      rcases List.mem_append.mp h with h1 | h1
      · rcases List.mem_append.mp h1 with h2 | h2
        · exact Or.inr ⟨x, by simp, h2⟩
        · exact Or.inl h2
      · rcases ih a h1 with h2 | ⟨p, hp, hap⟩
        · exact Or.inl h2
        · exact Or.inr ⟨p, by simp [hp], hap⟩

theorem mem_cleanup (text : List Char) (a : Char) (h : a ∈ cleanup text) :
    a = ' ' ∨ ∃ line ∈ pysplit "\n".data text, a ∈ line := by
  unfold cleanup at h
  rcases mem_intercalate _ _ a h with h1 | ⟨p, hp, hap⟩
  · left
    simpa using h1
  · rcases List.mem_filterMap.mp hp with ⟨line, hline, hsome⟩
    split at hsome
    · simp at hsome
    · cases hsome
      rcases mem_cleanLine _ a hap with h2 | h2
      · exact Or.inl h2
      · exact Or.inr ⟨line, hline, mem_pystrip _ a h2⟩

theorem newline_not_mem_cleanup (text : List Char) : '\n' ∉ cleanup text := by
  intro h
  rcases mem_cleanup text '\n' h with h1 | ⟨line, hline, h2⟩
  · simp at h1
  · exact not_mem_pysplit_single '\n' text line (by
      simpa [show "\n".data = ['\n'] from rfl] using hline) h2

theorem star_not_mem_cleanup (text : List Char) : '*' ∉ cleanup text := by
  intro h
  unfold cleanup at h
  rcases mem_intercalate _ _ '*' h with h1 | ⟨p, hp, hap⟩
  · simp at h1
  · rcases List.mem_filterMap.mp hp with ⟨line, -, hsome⟩
    split at hsome
    · simp at hsome
    · cases hsome
      exact star_not_mem_cleanLine _ hap

theorem hash_not_mem_cleanup (text : List Char) : '#' ∉ cleanup text := by
  intro h
  unfold cleanup at h
  rcases mem_intercalate _ _ '#' h with h1 | ⟨p, hp, hap⟩
  · simp at h1
  · rcases List.mem_filterMap.mp hp with ⟨line, -, hsome⟩
    split at hsome
    · simp at hsome
    · cases hsome
      exact hash_not_mem_cleanLine _ hap

theorem no_occ_of_head_not_mem (o : Char) (os s : List Char) (h : o ∉ s) :
    ∀ i, ¬ (o :: os) <+: s.drop i := by
  intro i hp
  exact h (List.drop_subset i s (hp.subset (by simp)))

/-- C4 counterexample: the cleanup is not idempotent on `"a   b"`: the first
pass collapses the three spaces to two (`replace('  ',' ')` is a single
left-to-right pass), and a second pass collapses them further. -/
theorem claim_C4_cex :
    cleanup "a   b".data = "a  b".data ∧
    cleanup (cleanup "a   b".data) ≠ cleanup "a   b".data := by decide

/-- C4 (amended): the line-cleanup flattening step is idempotent on every
input whose first cleanup output is already stripped and contains no doubled
space; in general a second application can differ (marker stripping can
expose edge whitespace, and doubled-space collapsing is single-pass). -/
theorem claim_C4 : ∀ text, pystrip (cleanup text) = cleanup text →
    ¬ ("  ".data <:+: cleanup text) → cleanup (cleanup text) = cleanup text := by
  intro text hstrip hnodbl
  by_cases hnil : cleanup text = []
  · rw [hnil]
    rfl
  · have hnl : pysplit "\n".data (cleanup text) = [cleanup text] := by
      apply pysplit_no_occ
      rw [show "\n".data = ['\n'] from rfl]
      exact no_occ_of_head_not_mem '\n' [] _ (newline_not_mem_cleanup text)
    have hclean : cleanLine (cleanup text) = cleanup text := by
      unfold cleanLine
      rw [pyreplace_no_occ "**".data [] _ (by
        rw [show "**".data = '*' :: ['*'] from rfl]
        exact no_occ_of_head_not_mem '*' ['*'] _ (star_not_mem_cleanup text))]
      rw [pyreplace_no_occ "*".data [] _ (by
        rw [show "*".data = '*' :: [] from rfl]
        exact no_occ_of_head_not_mem '*' [] _ (star_not_mem_cleanup text))]
      rw [pyreplace_no_occ "##".data [] _ (by
        rw [show "##".data = '#' :: ['#'] from rfl]
        exact no_occ_of_head_not_mem '#' ['#'] _ (hash_not_mem_cleanup text))]
      rw [pyreplace_no_occ "#".data [] _ (by
        rw [show "#".data = '#' :: [] from rfl]
        exact no_occ_of_head_not_mem '#' [] _ (hash_not_mem_cleanup text))]
      rw [pyreplace_no_occ "  ".data " ".data _ (by
        intro i hocc
        exact hnodbl ((infix_iff_occurs _ _).mpr ⟨i, hocc⟩))]
    conv_lhs => rw [cleanup]
    rw [hnl, List.filterMap_cons, if_neg (by rw [hstrip]; exact hnil)]
    rw [hstrip, hclean]
    simp [intercalate_single]

/-- Witness for C4 at `"hello\nworld"`, whose cleanup `"hello world"` is
stripped and free of doubled spaces. -/
theorem claim_C4_w :
    pystrip (cleanup "hello\nworld".data) = cleanup "hello\nworld".data ∧
    ¬ ("  ".data <:+: cleanup "hello\nworld".data) ∧
    cleanup (cleanup "hello\nworld".data) = cleanup "hello\nworld".data :=
  ⟨by decide, by decide, claim_C4 "hello\nworld".data (by decide) (by decide)⟩

/-- Label sequence prescribed by the claim (spec §4.4): two independent
1-based counters, the reply counter resetting to 0 at each new top-level
comment after the first. -/
def specLabels : List Bool → Nat → Nat → List (List Char)
  | [], _, _ => []
  | true :: rest, t, r =>
    ("REPLY ".data ++ natDigits (r + 1)) :: specLabels rest t (r + 1)
  | false :: rest, t, r =>
    ("COMMENT ".data ++ natDigits (t + 1)) ::
      specLabels rest (t + 1) (if t + 1 > 1 then 0 else r)

/-- One rendered entry, its label as prescribed by the claim (the source
prefixes reply labels with two spaces and indents them). -/
def entryOf (h2t : List Char → List Char) (c : Comment) (label : List Char) :
    List Char :=
  if c.is_reply then renderComment h2t c ("  ".data ++ label) "    ".data
  else renderComment h2t c label []

theorem specLabels_length : ∀ bs t r, (specLabels bs t r).length = bs.length := by
  intro bs
  induction bs with
  | nil => intro t r; rfl
  | cons b rest ih =>
    intro t r
    cases b <;> simp [specLabels, ih]

theorem processCommentsAux_eq_zipWith (h2t : List Char → List Char) :
    ∀ (comments : List Comment) (cc rc : Nat),
      processCommentsAux h2t comments cc rc =
        (List.zipWith (entryOf h2t) comments
          (specLabels (comments.map Comment.is_reply) cc rc)).flatten := by
  intro comments
  induction comments with
  | nil => intro cc rc; rfl
  | cons c cs ih =>
    intro cc rc
    cases hrep : c.is_reply with
    | true =>
      simp only [processCommentsAux, hrep, List.map_cons, specLabels,
        List.zipWith_cons_cons, List.flatten_cons, entryOf]
      rw [ih cc (rc + 1)]
      simp [List.append_assoc]
    | false =>
      simp only [processCommentsAux, hrep, List.map_cons, specLabels,
        List.zipWith_cons_cons, List.flatten_cons, entryOf]
      rw [ih (cc + 1) (if cc + 1 > 1 then 0 else rc)]
      simp [List.append_assoc]

theorem renderComment_parts (h2t : List Char → List Char) (c : Comment)
    (label indent : List Char) (hb : c.body ≠ []) :
    ("Author: ".data ++ c.author ++ "\n".data) <:+: renderComment h2t c label indent ∧
    ("Date: ".data ++ c.created ++ "\n".data) <:+: renderComment h2t c label indent ∧
    (c.is_reply = false →
      (get_commented_content c ++ "\n".data) <:+: renderComment h2t c label indent) := by
  unfold renderComment
  rw [if_pos hb]
  refine ⟨?_, ?_, ?_⟩
  · refine ⟨indent ++ "--- ".data ++ label ++ " ---\n".data ++ indent,
      indent ++ "Date: ".data ++ c.created ++ "\n".data ++
        (if !c.is_reply then indent ++ get_commented_content c ++ "\n".data else []) ++
        indent ++ "Content: ".data ++ cleanup (pystrip (h2t c.body)) ++ "\n\n".data, ?_⟩
    simp [List.append_assoc]
  · refine ⟨indent ++ "--- ".data ++ label ++ " ---\n".data ++ indent ++
        "Author: ".data ++ c.author ++ "\n".data ++ indent,
      (if !c.is_reply then indent ++ get_commented_content c ++ "\n".data else []) ++
        indent ++ "Content: ".data ++ cleanup (pystrip (h2t c.body)) ++ "\n\n".data, ?_⟩
    simp [List.append_assoc]
  · intro hrep
    rw [hrep]
    refine ⟨indent ++ "--- ".data ++ label ++ " ---\n".data ++ indent ++
        "Author: ".data ++ c.author ++ "\n".data ++ indent ++
        "Date: ".data ++ c.created ++ "\n".data ++ indent,
      indent ++ "Content: ".data ++ cleanup (pystrip (h2t c.body)) ++ "\n\n".data, ?_⟩
    simp [List.append_assoc]

theorem entry_infix_process (h2t : List Char → List Char) (comments : List Comment)
    (hne : comments ≠ []) (c : Comment) (hc : c ∈ comments) (tok : List Char)
    (htok : ∀ label indent, tok <:+: renderComment h2t c label indent) :
    tok <:+: process_comments h2t comments := by
  unfold process_comments
  rw [if_neg hne]
  apply infix_app_left
  rw [processCommentsAux_eq_zipWith]
  rcases List.mem_iff_getElem.mp hc with ⟨i, hi, hget⟩
  have hlablen : (specLabels (comments.map Comment.is_reply) 0 0).length
      = comments.length := by
    rw [specLabels_length, List.length_map]
  have hzlen : i < (List.zipWith (entryOf h2t) comments
      (specLabels (comments.map Comment.is_reply) 0 0)).length := by
    rw [List.length_zipWith, hlablen]
    simp
    omega
  have hmem := List.getElem_mem hzlen
  have hlt : i < (specLabels (comments.map Comment.is_reply) 0 0).length := by omega
  have hval : (List.zipWith (entryOf h2t) comments
      (specLabels (comments.map Comment.is_reply) 0 0))[i]
      = entryOf h2t c ((specLabels (comments.map Comment.is_reply) 0 0).get ⟨i, hlt⟩) := by
    rw [List.getElem_zipWith, hget, List.get_eq_getElem]
  have hentry : tok <:+: entryOf h2t c
      ((specLabels (comments.map Comment.is_reply) 0 0).get ⟨i, hlt⟩) := by
    unfold entryOf
    split
    · exact htok _ _
    · exact htok _ _
  exact hentry.trans (hval ▸ List.infix_of_mem_flatten hmem)

/-- C3 (amended): the Comment Thread Flattener labels non-reply comments
`COMMENT <topLevelIndex>` and replies `REPLY <replyIndex>` with two
independent 1-based counters, the reply counter resetting at each new
top-level comment after the first (`specLabels` transcribes this contract and
the rendering is exactly the zip of the comments with those labels); each
comment *with a non-empty body* is rendered as an entry carrying author,
timestamp and, for top-level comments, a context line; the example
list yields labels COMMENT 1, REPLY 1, COMMENT 2, REPLY 1. -/
theorem claim_C3 : ∀ (h2t : List Char → List Char) (comments : List Comment),
    comments ≠ [] → (∀ c ∈ comments, c.body ≠ []) →
    (process_comments h2t comments =
      "\n\nPAGE COMMENTS AND DISCUSSIONS:\n\n".data ++
        (List.zipWith (entryOf h2t) comments
          (specLabels (comments.map Comment.is_reply) 0 0)).flatten) ∧
    (∀ c ∈ comments,
      ("Author: ".data ++ c.author ++ "\n".data) <:+: process_comments h2t comments ∧
      ("Date: ".data ++ c.created ++ "\n".data) <:+: process_comments h2t comments ∧
      (c.is_reply = false →
        (get_commented_content c ++ "\n".data) <:+: process_comments h2t comments)) ∧
    specLabels [false, true, false, true] 0 0 =
      ["COMMENT 1".data, "REPLY 1".data, "COMMENT 2".data, "REPLY 1".data] := by
  intro h2t comments hne hbody
  refine ⟨?_, ?_, by decide⟩
  · unfold process_comments
    rw [if_neg hne, processCommentsAux_eq_zipWith]
  · intro c hc
    have hb := hbody c hc
    refine ⟨?_, ?_, ?_⟩
    · exact entry_infix_process h2t comments hne c hc _
        (fun label indent => (renderComment_parts h2t c label indent hb).1)
    · exact entry_infix_process h2t comments hne c hc _
        (fun label indent => (renderComment_parts h2t c label indent hb).2.1)
    · intro hrep
      exact entry_infix_process h2t comments hne c hc _
        (fun label indent => (renderComment_parts h2t c label indent hb).2.2 hrep)

/-- C3 counterexample: a top-level comment with an empty body is iterated but
produces no rendered entry at all — not even its label or author — so it is
not "rendered as an entry containing author, timestamp, and a context line"
as the claim states for every iterated comment. -/
theorem claim_C3_cex :
    process_comments (fun s => s)
      [{ is_reply := false, author := "Alice".data, created := "t1".data,
         body := [], ancestors := [] }]
      = "\n\nPAGE COMMENTS AND DISCUSSIONS:\n\n".data ∧
    ¬ ("Author: ".data <:+: process_comments (fun s => s)
      [{ is_reply := false, author := "Alice".data, created := "t1".data,
         body := [], ancestors := [] }]) ∧
    ¬ ("COMMENT 1".data <:+: process_comments (fun s => s)
      [{ is_reply := false, author := "Alice".data, created := "t1".data,
         body := [], ancestors := [] }]) := by decide

/-- The example thread of the claim: top, reply, top, reply, all non-empty. -/
def exThread : List Comment :=
  [{ is_reply := false, author := "A1".data, created := "t1".data,
     body := "one".data, ancestors := [] },
   { is_reply := true, author := "A2".data, created := "t2".data,
     body := "two".data, ancestors := [] },
   { is_reply := false, author := "A3".data, created := "t3".data,
     body := "three".data, ancestors := [] },
   { is_reply := true, author := "A4".data, created := "t4".data,
     body := "four".data, ancestors := [] }]

set_option maxRecDepth 4000 in
/-- Witness for C3 at the example thread. -/
theorem claim_C3_w :
    exThread ≠ [] ∧ (∀ c ∈ exThread, c.body ≠ []) ∧
    specLabels [false, true, false, true] 0 0 =
      ["COMMENT 1".data, "REPLY 1".data, "COMMENT 2".data, "REPLY 1".data] ∧
    ("Author: ".data ++ "A1".data ++ "\n".data)
      <:+: process_comments (fun s => s) exThread :=
  ⟨by decide, by decide,
   (claim_C3 (fun s => s) exThread (by decide) (by decide)).2.2,
   ((claim_C3 (fun s => s) exThread (by decide) (by decide)).2.1
     { is_reply := false, author := "A1".data, created := "t1".data,
       body := "one".data, ancestors := [] } (by decide)).1⟩

/-- Three top-level comments, the middle one with an empty body. -/
def exGap : List Comment :=
  [{ is_reply := false, author := "Ann".data, created := "t1".data,
     body := "x".data, ancestors := [] },
   { is_reply := false, author := "Bob".data, created := "t2".data,
     body := [], ancestors := [] },
   { is_reply := false, author := "Cid".data, created := "t3".data,
     body := "y".data, ancestors := [] }]

set_option maxRecDepth 4000 in
/-- C9: a comment with empty body still advances the corresponding counter
but contributes no rendered text, so labels can gap: the example list renders
COMMENT 1 and COMMENT 3 with no COMMENT 2 and no trace of the author of
the dropped comment. -/
theorem claim_C9 :
    (∀ (h2t : List Char → List Char) (c : Comment) (cs : List Comment) (cc rc : Nat),
      c.body = [] →
      processCommentsAux h2t (c :: cs) cc rc =
        processCommentsAux h2t cs (if c.is_reply then cc else cc + 1)
          (if c.is_reply then rc + 1 else if cc + 1 > 1 then 0 else rc)) ∧
    ("--- COMMENT 1 ---".data <:+: process_comments (fun s => s) exGap) ∧
    ("--- COMMENT 3 ---".data <:+: process_comments (fun s => s) exGap) ∧
    ¬ ("COMMENT 2".data <:+: process_comments (fun s => s) exGap) ∧
    ¬ ("Bob".data <:+: process_comments (fun s => s) exGap) := by
  constructor
  · intro h2t c cs cc rc hb
    cases hrep : c.is_reply <;>
      simp [processCommentsAux, hrep, renderComment, hb]
  · exact ⟨by decide, by decide, by decide, by decide⟩

/-- Witness for C9 at a concrete empty-bodied comment. -/
theorem claim_C9_w :
    ({ is_reply := false, author := "Bob".data, created := "t2".data,
       body := [], ancestors := [] } : Comment).body = [] ∧
    processCommentsAux (fun s => s)
      [{ is_reply := false, author := "Bob".data, created := "t2".data,
         body := [], ancestors := [] }] 0 0
      = processCommentsAux (fun s => s) [] 1 0 :=
  ⟨rfl, claim_C9.1 (fun s => s)
    { is_reply := false, author := "Bob".data, created := "t2".data,
      body := [], ancestors := [] } [] 0 0 rfl⟩

/-- C7 counterexample: an explicit but empty email parameter is present yet
not the one used — the environment value wins (`params.get('email') or
os.getenv(...)` falls through on the falsy empty string), and the run then
proceeds past the email check on the environment credential. -/
def trivialImgWorld : ImgWorld :=
  { download := fun _ => none, ocr := fun b => Except.ok b,
    h2t := fun _ => [], urljoin := fun a b => a ++ b }

def cexWorld : World :=
  { envEmail := some "env@x".data, envToken := some "tok".data, authOk := false,
    fetch := Except.error "nope".data, commentResults := [],
    h2tComments := fun s => s, imgw := trivialImgWorld,
    baseUrl := "https://x".data, writeOk := true }

def cexParams : Params :=
  { url := "https://x/pages/1".data, email := some [], api_token := some "t".data,
    include_comments := false, output_file := none }

theorem claim_C7_cex :
    cexParams.email = some [] ∧
    cexWorld.envEmail = some "env@x".data ∧
    resolveEmail cexWorld cexParams = some "env@x".data ∧
    some "env@x".data ≠ some ([] : List Char) ∧
    (run cexWorld cexParams).1
      = RunResult.err "Authentication failed. Please check your credentials.".data := by
  refine ⟨rfl, rfl, rfl, by decide, by decide⟩

/-- C7 (amended): a *non-empty* explicit credential parameter is the one
used (an empty explicit parameter is falsy and falls back to the
environment); if after this resolution the email is missing or empty the run
returns the email-specific error envelope, and likewise for the api token. -/
theorem claim_C7 :
    (∀ (w : World) (p : Params) (v : List Char), p.email = some v → v ≠ [] →
      resolveEmail w p = some v) ∧
    (∀ (w : World) (p : Params) (v : List Char), p.api_token = some v → v ≠ [] →
      resolveToken w p = some v) ∧
    (∀ (w : World) (p : Params), truthyS (resolveEmail w p) = false →
      (run w p).1 = RunResult.err
        "CONFLUENCE_EMAIL not provided in params or environment variables".data) ∧
    (∀ (w : World) (p : Params), truthyS (resolveEmail w p) = true →
      truthyS (resolveToken w p) = false →
      (run w p).1 = RunResult.err
        "CONFLUENCE_API_TOKEN not provided in params or environment variables".data) := by
  refine ⟨?_, ?_, ?_, ?_⟩
  · intro w p v hv hne
    unfold resolveEmail pyOrS
    rw [hv]
    simp [truthyS, hne]
  · intro w p v hv hne
    unfold resolveToken pyOrS
    rw [hv]
    simp [truthyS, hne]
  · intro w p h
    unfold run
    rw [if_pos (by simp [h])]
  · intro w p h1 h2
    unfold run
    rw [if_neg (by simp [h1]), if_pos (by simp [h2])]

def okP : Params :=
  { url := "https://x/pages/1".data, email := some "me@x".data,
    api_token := some "t".data, include_comments := false,
    output_file := some "out.txt".data }

/-- Witness for C7: a non-empty explicit email and token win over the
environment; removing both sources of a credential yields its specific
error envelope. -/
theorem claim_C7_w :
    resolveEmail cexWorld okP = some "me@x".data ∧
    resolveToken cexWorld okP = some "t".data ∧
    (run { cexWorld with envEmail := none } { okP with email := none }).1
      = RunResult.err
        "CONFLUENCE_EMAIL not provided in params or environment variables".data ∧
    (run { cexWorld with envToken := none } { okP with api_token := none }).1
      = RunResult.err
        "CONFLUENCE_API_TOKEN not provided in params or environment variables".data :=
  ⟨claim_C7.1 cexWorld okP "me@x".data rfl (by decide),
   claim_C7.2.1 cexWorld okP "t".data rfl (by decide),
   claim_C7.2.2.1 _ _ (by decide),
   claim_C7.2.2.2 _ _ (by decide) (by decide)⟩

theorem run_success (w : World) (p : Params) (page : Page)
    (hemail : truthyS (resolveEmail w p) = true)
    (htoken : truthyS (resolveToken w p) = true)
    (hpid : (extract_page_id_from_url p.url).isOk = true)
    (hauth : w.authOk = true) (hfetch : w.fetch = Except.ok page) :
    run w p = (RunResult.ok page.title page.typ page.statusField
        (finalContentOf w p page) page.id p.url
        (if truthyS p.output_file then p.output_file else none),
      if truthyS p.output_file ∧ w.writeOk then
        some (fileHeader page p.url ++ finalContentOf w p page) else none) := by
  unfold run
  rw [if_neg (by simp [hemail]), if_neg (by simp [htoken])]
  cases hpe : extract_page_id_from_url p.url with
  | error m => rw [hpe] at hpid; simp [Except.isOk, Except.toBool] at hpid
  | ok pid =>
    rw [if_neg (by simp [hauth]), hfetch]

/-- C8: when credentials resolve, authentication and the page fetch succeed,
an output file is requested and the write fails, the run still returns the
success envelope carrying the full in-memory content; no file is written,
and the envelope is identical to the one produced when the write succeeds. -/
theorem claim_C8 : ∀ (w : World) (p : Params) (page : Page) (f : List Char),
    truthyS (resolveEmail w p) = true → truthyS (resolveToken w p) = true →
    (extract_page_id_from_url p.url).isOk = true →
    w.authOk = true → w.fetch = Except.ok page →
    p.output_file = some f → f ≠ [] → w.writeOk = false →
    (run w p).1 = RunResult.ok page.title page.typ page.statusField
      (finalContentOf w p page) page.id p.url (some f) ∧
    (run w p).2 = none ∧
    (run w p).1 = (run { w with writeOk := true } p).1 := by
  intro w p page f hemail htoken hpid hauth hfetch hf hfne hw
  have h1 := run_success w p page hemail htoken hpid hauth hfetch
  have h2 := run_success { w with writeOk := true } p page hemail htoken hpid hauth hfetch
  refine ⟨?_, ?_, ?_⟩
  · rw [h1]
    simp [hf, truthyS, hfne]
  · rw [h1]
    simp [hw]
  · rw [h1, h2]
    rfl

def okPage : Page :=
  { id := "1".data, title := "T".data, typ := "page".data,
    statusField := "current".data, body := none }

def okWorld : World :=
  { envEmail := none, envToken := none, authOk := true,
    fetch := Except.ok okPage, commentResults := [],
    h2tComments := fun s => s, imgw := trivialImgWorld,
    baseUrl := "https://x".data, writeOk := false }

/-- Witness for C8: a concrete failing write still yields the success
envelope with the full content and writes nothing. -/
theorem claim_C8_w :
    okWorld.writeOk = false ∧
    (run okWorld okP).1 = RunResult.ok okPage.title okPage.typ okPage.statusField
      (finalContentOf okWorld okP okPage) okPage.id okP.url (some "out.txt".data) ∧
    (run okWorld okP).2 = none :=
  ⟨rfl,
   (claim_C8 okWorld okP okPage "out.txt".data (by decide) (by decide) (by decide)
     rfl rfl rfl (by decide) rfl).1,
   (claim_C8 okWorld okP okPage "out.txt".data (by decide) (by decide) (by decide)
     rfl rfl rfl (by decide) rfl).2.1⟩

theorem mem_natDigitsF :
    ∀ fuel n c, c ∈ natDigitsF fuel n → ∃ d, d < 10 ∧ c = digitChar d := by
  intro fuel
  induction fuel with
  | zero => intro n c h; simp [natDigitsF] at h
  | succ f ih =>
    intro n c h
    simp only [natDigitsF] at h
    split at h
    · rename_i hn
      simp at h
      exact ⟨n, hn, h⟩
    · rcases List.mem_append.mp h with h1 | h1
      · exact ih (n / 10) c h1
      · simp at h1
        exact ⟨n % 10, Nat.mod_lt _ (by omega), h1⟩

theorem natDigits_char_ok (n : Nat) (c : Char) (h : c ∈ natDigits n) :
    isWs c = false ∧ c ≠ '*' ∧ c ≠ '#' := by
  rcases mem_natDigitsF _ n c h with ⟨d, hd, rfl⟩
  interval_cases d <;> exact ⟨by decide, by decide, by decide⟩

theorem imgPlaceholder_ne_nil (n : Nat) : imgPlaceholder n ≠ [] := by
  unfold imgPlaceholder
  intro h
  have := congrArg List.length h
  simp [List.length_append] at this

theorem imgPlaceholder_char_ok (n : Nat) (c : Char) (h : c ∈ imgPlaceholder n) :
    isWs c = false ∧ c ≠ '*' ∧ c ≠ '#' := by
  unfold imgPlaceholder at h
  rcases List.mem_append.mp h with h1 | h1
  · rcases List.mem_append.mp h1 with h2 | h2
    · have : c ∈ "[IMAGE_".data := h2
      fin_cases this <;> exact ⟨by decide, by decide, by decide⟩
    · exact natDigits_char_ok n c h2
  · have : c ∈ "_PROCESSED_BELOW]".data := h1
    fin_cases this <;> exact ⟨by decide, by decide, by decide⟩

/-- Number of `img` elements (the `enumerate(images)` index space). -/
def countImg : List Node → Nat
  | [] => 0
  | Node.img _ :: rest => countImg rest + 1
  | _ :: rest => countImg rest

theorem countImg_cons_img (osrc : Option (List Char)) (rest : List Node) :
    countImg (Node.img osrc :: rest) = countImg rest + 1 := rfl

theorem processImages_append (w : ImgWorld) (base : List Char) :
    ∀ (pre rest : List Node) (i : Nat),
      processImages w base (pre ++ rest) i =
        ((processImages w base pre i).1 ++
          (processImages w base rest (i + countImg pre)).1,
         (processImages w base pre i).2 ++
          (processImages w base rest (i + countImg pre)).2) := by
  intro pre
  induction pre with
  | nil => intro rest i; simp [processImages, countImg]
  | cons node pre' ih =>
    intro rest i
    cases node with
    | text t =>
      simp only [List.cons_append, processImages, countImg, List.append_eq]
      rw [ih rest i]
    | riAtt f =>
      simp only [List.cons_append, processImages, countImg, List.append_eq]
      rw [ih rest i]
    | img osrc =>
      cases osrc with
      | some src =>
        cases hdl : w.download (resolveSrc w base src) with
        | some bytes =>
          simp only [List.cons_append, processImages, hdl, countImg, List.append_eq]
          rw [ih rest (i + 1)]
          simp [Nat.add_comm, Nat.add_assoc, Nat.add_left_comm]
        | none =>
          simp only [List.cons_append, processImages, hdl, countImg, List.append_eq]
          rw [ih rest (i + 1)]
          simp [Nat.add_comm, Nat.add_assoc, Nat.add_left_comm]
      | none =>
        simp only [List.cons_append, processImages, countImg, List.append_eq]
        rw [ih rest (i + 1)]
        simp [Nat.add_comm, Nat.add_assoc, Nat.add_left_comm]

/-- C10: when an inline image download and extraction succeed, the image
element (here the `n`-th `img` element, `n = countImg pre + 1`) is replaced
in the tree by the text node `[IMAGE_<n>_PROCESSED_BELOW]`; whenever the
markup-to-text reduction renders that token (the hypothesis on `h2t`), the
token survives the line cleanup verbatim into the flattened body, alongside
the `--- IMAGE <n> ---` block appended under the extracted-images header. -/
theorem claim_C10 : ∀ (w : ImgWorld) (base pageId src bytes : List Char)
    (pre post : List Node),
    w.download (resolveSrc w base src) = some bytes →
    imgPlaceholder (countImg pre + 1) <:+:
      w.h2t (processImages w base (pre ++ Node.img (some src) :: post) 0).1 →
    ((processImages w base (pre ++ Node.img (some src) :: post) 0).1
      = (processImages w base pre 0).1 ++
        Node.text (imgPlaceholder (countImg pre + 1)) ::
          (processImages w base post (countImg pre + 1)).1) ∧
    (imgPlaceholder (countImg pre + 1) <:+:
      process_confluence_content w base pageId
        (some (pre ++ Node.img (some src) :: post))) ∧
    (("\n--- IMAGE ".data ++ natDigits (countImg pre + 1) ++ " ---\n".data ++
        extract_table_from_image (w.ocr bytes) ++ "\n".data) <:+:
      process_confluence_content w base pageId
        (some (pre ++ Node.img (some src) :: post))) ∧
    ("\n\nEXTRACTED IMAGES AND TABLES:\n".data <:+:
      process_confluence_content w base pageId
        (some (pre ++ Node.img (some src) :: post))) := by
  intro w base pageId src bytes pre post hdl hph
  have hstep : processImages w base (Node.img (some src) :: post) (0 + countImg pre) =
      (Node.text (imgPlaceholder (countImg pre + 1)) ::
          (processImages w base post (countImg pre + 1)).1,
        ("\n--- IMAGE ".data ++ natDigits (countImg pre + 1) ++ " ---\n".data ++
          extract_table_from_image (w.ocr bytes) ++ "\n".data) ::
          (processImages w base post (countImg pre + 1)).2) := by
    simp only [processImages, hdl, Nat.zero_add]
  have hap := processImages_append w base pre (Node.img (some src) :: post) 0
  have h1 : (processImages w base (pre ++ Node.img (some src) :: post) 0).1
      = (processImages w base pre 0).1 ++
        Node.text (imgPlaceholder (countImg pre + 1)) ::
          (processImages w base post (countImg pre + 1)).1 := by
    rw [hap, hstep]
  have hblock : ("\n--- IMAGE ".data ++ natDigits (countImg pre + 1) ++ " ---\n".data ++
      extract_table_from_image (w.ocr bytes) ++ "\n".data)
      ∈ (processImages w base (pre ++ Node.img (some src) :: post) 0).2 := by
    rw [hap, hstep]
    simp
  have hITne : (processImages w base (pre ++ Node.img (some src) :: post) 0).2 ++
      processAtts w base pageId (docAtts (pre ++ Node.img (some src) :: post)) 0 ≠ [] := by
    intro h
    rcases List.append_eq_nil.mp h with ⟨hh, -⟩
    rw [hh] at hblock
    simp at hblock
  have hfinal : process_confluence_content w base pageId
      (some (pre ++ Node.img (some src) :: post)) =
      cleanup (w.h2t (processImages w base (pre ++ Node.img (some src) :: post) 0).1) ++
        "\n\nEXTRACTED IMAGES AND TABLES:\n".data ++
        ((processImages w base (pre ++ Node.img (some src) :: post) 0).2 ++
          processAtts w base pageId (docAtts (pre ++ Node.img (some src) :: post)) 0).flatten := by
    simp only [process_confluence_content]
    rw [if_pos hITne]
  refine ⟨h1, ?_, ?_, ?_⟩
  · have hclean := cleanup_keeps_token (imgPlaceholder (countImg pre + 1))
      (imgPlaceholder_ne_nil _)
      (fun a ha => (imgPlaceholder_char_ok _ a ha).1)
      (fun a ha => (imgPlaceholder_char_ok _ a ha).2.1)
      (fun a ha => (imgPlaceholder_char_ok _ a ha).2.2)
      _ hph
    rw [hfinal]
    exact infix_app_right _ (infix_app_right _ hclean)
  · rw [hfinal]
    exact infix_app_left _
      (List.infix_of_mem_flatten (List.mem_append_left _ hblock))
  · rw [hfinal]
    exact ⟨cleanup (w.h2t (processImages w base
        (pre ++ Node.img (some src) :: post) 0).1),
      ((processImages w base (pre ++ Node.img (some src) :: post) 0).2 ++
        processAtts w base pageId (docAtts (pre ++ Node.img (some src) :: post)) 0).flatten,
      rfl⟩

/-- A markup-to-text black box rendering text nodes verbatim. -/
def c10World : ImgWorld :=
  { download := fun _ => some "b".data, ocr := fun _ => Except.ok "cell".data,
    h2t := fun doc => (doc.map (fun n => match n with
      | Node.text t => t
      | Node.img _ => []
      | Node.riAtt _ => [])).flatten,
    urljoin := fun a b => a ++ b }

set_option maxRecDepth 4000 in
/-- Witness for C10 at a concrete one-image document. -/
theorem claim_C10_w :
    c10World.download (resolveSrc c10World "https://x".data "http://img".data)
      = some "b".data ∧
    (imgPlaceholder (countImg [Node.text "hello ".data] + 1) <:+:
      c10World.h2t (processImages c10World "https://x".data
        ([Node.text "hello ".data] ++ Node.img (some "http://img".data) :: []) 0).1) ∧
    (imgPlaceholder 1 <:+:
      process_confluence_content c10World "https://x".data "1".data
        (some ([Node.text "hello ".data] ++ Node.img (some "http://img".data) :: []))) :=
  ⟨rfl, by decide,
   (claim_C10 c10World "https://x".data "1".data "http://img".data "b".data
     [Node.text "hello ".data] [] rfl (by decide)).2.1⟩
